import Mathlib

/-!
# Verification of the steam_data_project harvest engine and normalization pipeline

This file is a shallow embedding, in Lean 4, of the checkpoint store, the
harvest-state bookkeeping, the scraper run loops, and the normalization
(`prepare_data`) functions of the repository, together with theorems that
settle the specification's claims against that embedding.

Modelling conventions:
* Python `dict` values are insertion-ordered association lists
  (`List (key × value)`); `d[k] = v` is `dictInsert` (update in place if the
  key exists, append otherwise).
* Python `set` values are `Finset`; `x in s` is `Finset` membership.
  The iteration order of a Python set (`list(s)`, `for x in s`) is
  implementation-defined and, for strings, varies from run to run with hash
  randomization.  Wherever the code materializes a set into a list, the
  embedding takes an explicit enumeration function as a parameter; a valid
  enumeration is any duplicate-free listing of exactly the set's elements.
* Timestamps (`datetime.now()`) are `Nat` values supplied by the caller or by
  a clock oracle; `pickle` round-trips them exactly, so no precision model is
  needed beyond exact equality.
* Network responses are supplied by response oracles (`Nat → HttpEvent` for
  the transport layer, traces of classified outcomes for the engine loops);
  `time.sleep` and logging have no observable effect on the state and are
  omitted.
-/

namespace SteamData

/-! ## Python dict as an insertion-ordered association list -/

/-- Python dict assignment `d[k] = v`: update the value in place if `k` is already a
key (keeping its position), otherwise append the new binding at the end. -/
def dictInsert {α β : Type} [DecidableEq α] : List (α × β) → α → β → List (α × β)
  | [], k, v => [(k, v)]
  | (k', v') :: rest, k, v =>
      if k' = k then (k', v) :: rest else (k', v') :: dictInsert rest k v

/-- Python `list(d.keys())` on a dict. -/
def dictKeys {α β : Type} (d : List (α × β)) : List α := d.map Prod.fst

/-- Python `d.get(k)` on a dict. -/
def dictLookup {α β : Type} [DecidableEq α] : List (α × β) → α → Option β
  | [], _ => none
  | (k', v) :: rest, k => if k' = k then some v else dictLookup rest k

/-! ## SteamSpyCheckpoint (steamspy_scraper.py) -/

/-- The `SteamSpyCheckpoint` dataclass from steamspy_scraper.py: a `BaseCheckpoint`
(`started_at`, `last_saved_at`) plus the partition fields.  `failed_ids` is a
dict `appid -> error`. -/
structure SteamSpyCheckpoint where
  started_at : Option Nat := none
  last_saved_at : Option Nat := none
  app_ids_to_scrape : List Nat := []
  completed_ids : Finset Nat := ∅
  no_data_ids : Finset Nat := ∅
  failed_ids : List (Nat × String) := []
  deriving DecidableEq

/-- The keys of `failed_ids` as a finite set (`set(self.failed_ids.keys())`). -/
def failedKeySet (c : SteamSpyCheckpoint) : Finset Nat :=
  (dictKeys c.failed_ids).toFinset

/-- The set `done = self.completed_ids | self.no_data_ids | set(self.failed_ids.keys())`
in `SteamSpyCheckpoint.get_pending`. -/
def doneSet (c : SteamSpyCheckpoint) : Finset Nat :=
  c.completed_ids ∪ c.no_data_ids ∪ failedKeySet c

/-- Method `SteamSpyCheckpoint.get_pending`:
`[appid for appid in self.app_ids_to_scrape if appid not in done]`. -/
def SteamSpyCheckpoint.get_pending (c : SteamSpyCheckpoint) : List Nat :=
  c.app_ids_to_scrape.filter (fun a => decide (a ∉ doneSet c))

/-- Method `BaseCheckpoint.mark_started`: set `started_at` on the first call only. -/
def SteamSpyCheckpoint.mark_started (c : SteamSpyCheckpoint) (now : Nat) :
    SteamSpyCheckpoint :=
  if c.started_at = none then { c with started_at := some now } else c

/-- The classified outcome of one `SteamSpyAPI.get_app_details` call as seen by
the run loop: a usable payload, a no-data result (`None`), or an escaped
`requests.RequestException` with its message. -/
inductive FetchResult where
  | payload (data : String)
  | nodata
  | fatal (msg : String)
  deriving DecidableEq

/-- One iteration of the `SteamSpyScraper.run` loop body for app id `appid`
with classified fetch outcome `r` (the partition bookkeeping; the JSONL append
and periodic checkpoint save do not touch the partition fields). -/
def spyStep (c : SteamSpyCheckpoint) (appid : Nat) (r : FetchResult) :
    SteamSpyCheckpoint :=
  match r with
  | .payload _ => { c with completed_ids := insert appid c.completed_ids }
  | .nodata => { c with no_data_ids := insert appid c.no_data_ids }
  | .fatal msg => { c with failed_ids := dictInsert c.failed_ids appid msg }

/-- The `SteamSpyScraper.run` loop over a list of (app id, classified fetch
outcome) pairs.  Interruption at any point corresponds to running the loop on
a prefix of the full zipped list. -/
def spyRunLoop (c : SteamSpyCheckpoint) : List (Nat × FetchResult) → SteamSpyCheckpoint
  | [] => c
  | (a, r) :: rest => spyRunLoop (spyStep c a r) rest

/-! ## Harvest-state invariants (spec section 8) -/

/-- Disjointness `completed ∩ excluded = ∅`, `completed ∩ keys(failed) = ∅`,
`excluded ∩ keys(failed) = ∅`, written exactly as in the spec. -/
def PartitionsDisjoint (c : SteamSpyCheckpoint) : Prop :=
  c.completed_ids ∩ c.no_data_ids = ∅ ∧
  c.completed_ids ∩ failedKeySet c = ∅ ∧
  c.no_data_ids ∩ failedKeySet c = ∅

instance (c : SteamSpyCheckpoint) : Decidable (PartitionsDisjoint c) :=
  inferInstanceAs (Decidable (_ ∧ _ ∧ _))

/-- The universe of target IDs of a checkpoint, as a set. -/
def universeSet (c : SteamSpyCheckpoint) : Finset Nat :=
  c.app_ids_to_scrape.toFinset

/-- Coverage `pending ∪ completed ∪ excluded ∪ keys(failed) = universe`. -/
def CoversUniverse (c : SteamSpyCheckpoint) : Prop :=
  c.get_pending.toFinset ∪ c.completed_ids ∪ c.no_data_ids ∪ failedKeySet c =
    universeSet c

instance (c : SteamSpyCheckpoint) : Decidable (CoversUniverse c) :=
  inferInstanceAs (Decidable (_ = _))

/-! ## Claim C1 -/

/-- The C1 counterexample's initial state: the universe sequence `[5, 5]`
contains a duplicate id, and `failed_ids` holds a key `7` outside the
universe.  Its partitions are nevertheless pairwise disjoint. -/
def c1CexStart : SteamSpyCheckpoint :=
  { app_ids_to_scrape := [5, 5], failed_ids := [(7, "x")] }

/-- The per-ID steps of the C1 counterexample run: the engine iterates
`get_pending = [5, 5]`; the first fetch of id 5 succeeds and the second
raises, exactly as two successive HTTP calls may. -/
def c1CexTrace : List (Nat × FetchResult) :=
  (c1CexStart.mark_started 0).get_pending.zip [.payload "d", .fatal "boom"]

/-- Initial state for the C1 witness: a duplicate-free universe `[1, 2, 3]`
with `1` already completed. -/
def c1WitState : SteamSpyCheckpoint :=
  { app_ids_to_scrape := [1, 2, 3], completed_ids := {1} }

/-! ## SteamAPICheckpoint (steam_api_scraper_v2.py) -/

/-- The `SteamAPICheckpoint` dataclass from steam_api_scraper_v2.py: `apps_data` maps app id
to the raw details payload (opaque here); `excluded_apps` and `error_apps` are
plain sets of ids. -/
structure SteamAPICheckpoint where
  started_at : Option Nat := none
  last_saved_at : Option Nat := none
  apps_data : List (Nat × String) := []
  excluded_apps : Finset Nat := ∅
  error_apps : Finset Nat := ∅
  deriving DecidableEq

/-- The set `processed = set(self.apps_data.keys()) | self.excluded_apps | self.error_apps`. -/
def v2Processed (c : SteamAPICheckpoint) : Finset Nat :=
  (dictKeys c.apps_data).toFinset ∪ c.excluded_apps ∪ c.error_apps

/-- A valid iteration order of a Python set `s`: a duplicate-free listing of
exactly the elements of `s`.  The actual order CPython produces depends on
hash values (randomized per process for strings) and table history; the
embedding therefore quantifies over enumeration functions. -/
def ValidEnum {α : Type} [DecidableEq α] (enum : Finset α → List α)
    (s : Finset α) : Prop :=
  (enum s).toFinset = s ∧ (enum s).Nodup

instance {α : Type} [DecidableEq α] (enum : Finset α → List α) (s : Finset α) :
    Decidable (ValidEnum enum s) :=
  inferInstanceAs (Decidable (_ ∧ _))

/-- An enumeration that lists the elements of a set following a fixed probe
sequence.  Instantiating the probe produces concrete iteration orders (for a
small-int set, CPython's actual order is the increasing one). -/
def probeEnum {α : Type} [DecidableEq α] (probe : List α) : Finset α → List α :=
  fun s => probe.filter (fun a => decide (a ∈ s))

/-- Method `SteamAPICheckpoint.get_pending`: `list(all_app_ids - processed)`, the set
difference materialized in set-iteration order `enum`. -/
def SteamAPICheckpoint.get_pending (c : SteamAPICheckpoint) (all : Finset Nat)
    (enum : Finset Nat → List Nat) : List Nat :=
  enum (all \ v2Processed c)

/-! ## Checkpoint store (checkpoint.py) -/

/-- The value domain of `pickle` as used by the checkpoints: the stream of a
pickled `SteamSpyCheckpoint` reconstructs exactly this record shape
(timestamps, the id list, the two sets, and the failed dict); sets are
written in iteration order and rebuilt as sets on load, so they are encoded
here through their sorted element list without loss. -/
inductive PVal where
  | pnone
  | pnat (n : Nat)
  | pstr (s : String)
  | natList (l : List Nat)
  | ckptRecord (started lastSaved : Option Nat) (ids completed nodata : List Nat)
      (failed : List (Nat × String))
  deriving DecidableEq

/-- Model of `pickle.dump` of a `SteamSpyCheckpoint`: the two sets are written to the
stream in their iteration order `enum`. -/
def encodeCkpt (enum : Finset Nat → List Nat) (c : SteamSpyCheckpoint) : PVal :=
  .ckptRecord c.started_at c.last_saved_at c.app_ids_to_scrape
    (enum c.completed_ids) (enum c.no_data_ids) c.failed_ids

/-- Model of `pickle.load` combined with the `isinstance(data, SteamSpyCheckpoint)`
shape check of `CheckpointManager.load`: `none` models the `TypeError`. -/
def decodeCkpt : PVal → Option SteamSpyCheckpoint
  | .ckptRecord s l ids completed nodata failed =>
      some { started_at := s, last_saved_at := l, app_ids_to_scrape := ids,
             completed_ids := completed.toFinset, no_data_ids := nodata.toFinset,
             failed_ids := failed }
  | _ => none

/-- The argument of `CheckpointManager.save`: either a checkpoint record
(which `hasattr(data, 'last_saved_at')` detects) or any other picklable
value. -/
inductive SaveArg where
  | ckpt (c : SteamSpyCheckpoint)
  | plain (v : PVal)
  deriving DecidableEq

/-- Check `hasattr(data, 'last_saved_at')`. -/
def hasLastSavedAt : SaveArg → Bool
  | .ckpt _ => true
  | .plain _ => false

/-- Assignment `data.last_saved_at = datetime.now()` — an in-place mutation of the
caller's object. -/
def touchLastSaved : SaveArg → Nat → SaveArg
  | .ckpt c, now => .ckpt { c with last_saved_at := some now }
  | .plain v, _ => .plain v

/-- The pickle stream written for a save argument. -/
def encodeArg (enum : Finset Nat → List Nat) : SaveArg → PVal
  | .ckpt c => encodeCkpt enum c
  | .plain v => v

/-- Method `CheckpointManager.save(name, data)`: update `data.last_saved_at` when the
attribute exists, then pickle the object to `<directory>/<name>.pkl`.  The
store is the directory as a name-to-blob dict; the second component is the
caller's (possibly mutated) object after the call. -/
def CheckpointManager.save (enum : Finset Nat → List Nat)
    (st : List (String × PVal)) (name : String)
    (data : SaveArg) (now : Nat) : List (String × PVal) × SaveArg :=
  let mutated := if hasLastSavedAt data then touchLastSaved data now else data
  (dictInsert st name (encodeArg enum mutated), mutated)

/-- The three outcomes of `CheckpointManager.load(name, expected_type)`:
missing file, `TypeError` on shape mismatch, or the loaded value. -/
inductive LoadResult (α : Type) where
  | absent
  | typeMismatch
  | ok (a : α)
  deriving DecidableEq

/-- Method `CheckpointManager.load(name, SteamSpyCheckpoint)`. -/
def CheckpointManager.load (st : List (String × PVal)) (name : String) :
    LoadResult SteamSpyCheckpoint :=
  match dictLookup st name with
  | none => .absent
  | some v =>
      match decodeCkpt v with
      | some c => .ok c
      | none => .typeMismatch

/-! ## Claim C2 -/

/-- A concrete state for the C2 witness. -/
def c2WitState : SteamSpyCheckpoint :=
  { started_at := some 11, app_ids_to_scrape := [4, 6], completed_ids := {4},
    failed_ids := [(6, "err")] }

/-! ## Claim C6 -/

/-- Byte encoding of an optional timestamp in the pickle stream. -/
def optBytes : Option Nat → List Nat
  | none => [0]
  | some n => [1, n]

/-- Byte encoding of a list of naturals in the pickle stream. -/
def natListBytes (l : List Nat) : List Nat := l.length :: l

/-- Byte encoding of a string in the pickle stream. -/
def strBytes (s : String) : List Nat := s.length :: s.data.map Char.toNat

/-- Byte encoding of the failed-ids dict in the pickle stream. -/
def failedBytes (d : List (Nat × String)) : List Nat :=
  d.length :: (d.map (fun p => p.1 :: strBytes p.2)).flatten

/-- The byte stream `pickle.dump` writes for a `SteamSpyCheckpoint` (the
byte-level counterpart of `encodeCkpt`, with sets written in iteration order
`enum`). -/
def serializeCkpt (enum : Finset Nat → List Nat) (c : SteamSpyCheckpoint) :
    List Nat :=
  optBytes c.started_at ++ optBytes c.last_saved_at ++
    natListBytes c.app_ids_to_scrape ++ natListBytes (enum c.completed_ids) ++
    natListBytes (enum c.no_data_ids) ++ failedBytes c.failed_ids

/-- The checkpoint-file contents observable around the write in
`CheckpointManager.save`: `old` before the call; `open(path, 'wb')` truncates
the file in place, so `bytes.take k` is the content after `k` of the new
bytes have been written; the final element is the complete new content. -/
def writeObservable (old bytes : List Nat) : List (List Nat) :=
  old :: ((List.range bytes.length).map (fun k => bytes.take k) ++ [bytes])

/-- The file contents observable while `CheckpointManager.save` overwrites a
checkpoint whose prior on-disk content is `old` with state `c`. -/
def saveObservable (enum : Finset Nat → List Nat) (old : List Nat)
    (c : SteamSpyCheckpoint) : List (List Nat) :=
  writeObservable old (serializeCkpt enum c)

/-! ## Transport layer (the fetch functions' retry loops) -/

/-- One HTTP interaction as a fetch function sees it: a 200 response carrying
a parsed body of type `β`, a non-200 status code, a
`requests.exceptions.Timeout`, or another `RequestException`. -/
inductive HttpEvent (β : Type) where
  | ok (body : β)
  | status (code : Nat)
  | timeout
  | netError (msg : String)
  deriving DecidableEq

/-- The JSON body of a SteamSpy 200 response: the `name` field and the rest
of the document (opaque); `none` at the call site models a falsy document. -/
structure SpyJson where
  name : Option String
  body : String
  deriving DecidableEq

/-- The result of one fetch-function call: a usable payload, the no-data
signal (`None`), or an exception escaping to the run loop. -/
inductive FetchOut (π : Type) where
  | payload (p : π)
  | nodata
  | fatal (msg : String)
  deriving DecidableEq

/-- Condition `not data or data.get('name') in (None, '', 'None')` in
`SteamSpyAPI.get_app_details`. -/
def spyNoData : Option SpyJson → Bool
  | none => true
  | some j =>
      decide (j.name = none) || decide (j.name = some "") ||
        decide (j.name = some "None")

/-- The bounded retry loop of `SteamSpyAPI.get_app_details`
(steamspy_scraper.py): `i` indexes the response oracle, `r` is the number of
loop iterations left out of `max_retries`.  A 200 response is classified
through `spyNoData`; 429 and a timeout sleep and consume an attempt; any
other status returns `None`; another `RequestException` re-raises.  After the
loop a `RequestException` is raised.  Returns the outcome and the number of
HTTP requests performed. -/
def spyFetchAux (appid : Nat) (resp : Nat → HttpEvent (Option SpyJson)) :
    Nat → Nat → FetchOut SpyJson × Nat
  | _, 0 => (.fatal ("Max retries exceeded for appid " ++ toString appid), 0)
  | i, r + 1 =>
      match resp i with
      | .ok none => (.nodata, 1)
      | .ok (some j) => (if spyNoData (some j) then .nodata else .payload j, 1)
      | .status code =>
          if code = 429 then
            let p := spyFetchAux appid resp (i + 1) r
            (p.1, p.2 + 1)
          else (.nodata, 1)
      | .timeout =>
          let p := spyFetchAux appid resp (i + 1) r
          (p.1, p.2 + 1)
      | .netError m => (.fatal m, 1)

/-- Method `SteamSpyAPI.get_app_details(appid)` against a response oracle. -/
def SteamSpyAPI.get_app_details (max_retries appid : Nat)
    (resp : Nat → HttpEvent (Option SpyJson)) : FetchOut SpyJson × Nat :=
  spyFetchAux appid resp 0 max_retries

/-- The bounded retry loop of `SteamStoreAPI.get_store_data`
(steam_store_scraper_v2.py): like the SteamSpy loop, but 404 returns `None`
and 403 also sleeps and consumes an attempt; the parsed 200 body is `none`
when the parser found no usable data. -/
def storeFetchAux (appid : Nat) (resp : Nat → HttpEvent (Option String)) :
    Nat → Nat → FetchOut String × Nat
  | _, 0 => (.fatal ("Max retries exceeded for appid " ++ toString appid), 0)
  | i, r + 1 =>
      match resp i with
      | .ok (some d) => (.payload d, 1)
      | .ok none => (.nodata, 1)
      | .status code =>
          if code = 404 then (.nodata, 1)
          else if code = 429 ∨ code = 403 then
            let p := storeFetchAux appid resp (i + 1) r
            (p.1, p.2 + 1)
          else (.nodata, 1)
      | .timeout =>
          let p := storeFetchAux appid resp (i + 1) r
          (p.1, p.2 + 1)
      | .netError m => (.fatal m, 1)

/-- The outcome of `SteamAPI.get_app_details` (steam_api_scraper_v2.py, and
identically steam_api_scraper.py): the `data.get(str(appid))` value of a 200
response, `None` for an unlisted status, or a raised `RequestException`. -/
inductive V2FetchOut where
  | result (d : Option String)
  | raised (msg : String)
  deriving DecidableEq

/-- Does `SteamAPI.get_app_details` respond to this event by sleeping and
calling itself again?  (`429` and `403` both do, with no attempt counter.) -/
def v2RetryEvent : HttpEvent (Option String) → Bool
  | .status code => code = 429 || code = 403
  | _ => false

/-- Attempt counting for the recursive retry of `SteamAPI.get_app_details`:
`v2Retries resp n = true` iff the call performs at least `n + 1` HTTP
requests, i.e. the first `n` responses each triggered the recursive
self-call. -/
def v2Retries (resp : Nat → HttpEvent (Option String)) : Nat → Bool
  | 0 => true
  | n + 1 => v2Retries resp n && v2RetryEvent (resp n)

/-- Method `SteamAPI.get_app_details` evaluated with recursion fuel `f`: `none`
means the recursion has not returned within `f` attempts — the code has no
attempt bound of its own. -/
def v2FetchFuel (resp : Nat → HttpEvent (Option String)) :
    Nat → Nat → Option V2FetchOut
  | 0, _ => none
  | f + 1, i =>
      match resp i with
      | .ok d => some (.result d)
      | .status code =>
          if code = 429 ∨ code = 403 then v2FetchFuel resp f (i + 1)
          else some (.result none)
      | .timeout => some (.raised "Timeout")
      | .netError m => some (.raised m)

/-! ## Run loops of steam_api_scraper_v2.py and steam_api_scraper.py -/

/-- The classified outcome of one loop iteration of `SteamScraper.run`
(identical classification code in both scrapers): `details is None`,
`not details['success']`, success with `details['data']`, or an exception
raised out of `get_app_details` that the loop does not catch. -/
inductive V2Outcome where
  | noDetails
  | notSuccess
  | success (data : String)
  | raised (msg : String)
  deriving DecidableEq

/-- Method `BaseCheckpoint.mark_started` for `SteamAPICheckpoint`. -/
def SteamAPICheckpoint.mark_started (c : SteamAPICheckpoint) (now : Nat) :
    SteamAPICheckpoint :=
  if c.started_at = none then { c with started_at := some now } else c

/-- Partition bookkeeping of one loop iteration of
steam_api_scraper_v2.py's `SteamScraper.run`.  A raised exception mutates
nothing. -/
def v2Step (c : SteamAPICheckpoint) (a : Nat) : V2Outcome → SteamAPICheckpoint
  | .noDetails => { c with error_apps := insert a c.error_apps }
  | .notSuccess => { c with excluded_apps := insert a c.excluded_apps }
  | .success d => { c with apps_data := dictInsert c.apps_data a d }
  | .raised _ => c

/-- Method `_save_checkpoint` as the v2 run loop sees it: `CheckpointManager.save`
sets `last_saved_at` on the live object (to the time of the `t`-th save) and
pickles exactly that value. -/
def v2SaveNow (clock : Nat → Nat) (t : Nat) (c : SteamAPICheckpoint) :
    SteamAPICheckpoint :=
  { c with last_saved_at := some (clock t) }

/-- The `for i, appid in enumerate(remaining, 1)` loop of v2
`SteamScraper.run`.  `kbAt = some i` models a `KeyboardInterrupt` delivered
before step `i` (caught by the `except KeyboardInterrupt`, so the loop exits
cleanly); a `raised` outcome propagates out of the `try` (third component
`some msg`).  Periodic saves happen when `i % interval = 0`. -/
def v2LoopAux (interval : Nat) (clock : Nat → Nat) (kbAt : Option Nat) :
    Nat → SteamAPICheckpoint → List SteamAPICheckpoint →
    List (Nat × V2Outcome) →
    SteamAPICheckpoint × List SteamAPICheckpoint × Option String
  | _, c, saves, [] => (c, saves, none)
  | i, c, saves, (a, o) :: rest =>
      if kbAt = some i then (c, saves, none)
      else
        match o with
        | .raised m => (c, saves, some m)
        | _ =>
            let c' := v2Step c a o
            if i % interval = 0 then
              let cs := v2SaveNow clock saves.length c'
              v2LoopAux interval clock kbAt (i + 1) cs (saves ++ [cs]) rest
            else v2LoopAux interval clock kbAt (i + 1) c' saves rest

/-- The result of a v2 run: the in-memory checkpoint when `run` returns, the
sequence of checkpoint values persisted, and the exception (if any) that
propagated after the `finally` block ran. -/
structure V2RunResult where
  final : SteamAPICheckpoint
  saves : List SteamAPICheckpoint
  aborted : Option String
  deriving DecidableEq

/-- Method `SteamScraper.run` of steam_api_scraper_v2.py: mark started, compute the
pending list, return early (without saving) when it is empty, otherwise run
the loop inside `try/except KeyboardInterrupt/finally`, with an unconditional
`_save_checkpoint` in the `finally` block — also when an exception is
propagating.  `testLimit` models the test-mode `remaining[:test_limit]`
truncation. -/
def SteamScraper.run_v2 (interval : Nat) (clock : Nat → Nat)
    (c0 : SteamAPICheckpoint) (now : Nat) (all : Finset Nat)
    (enum : Finset Nat → List Nat) (outcomes : List V2Outcome)
    (testLimit : Option Nat) (kbAt : Option Nat) : V2RunResult :=
  let c1 := c0.mark_started now
  let remaining := c1.get_pending all enum
  if remaining = [] then ⟨c1, [], none⟩
  else
    let capped := match testLimit with
      | some n => remaining.take n
      | none => remaining
    let r := v2LoopAux interval clock kbAt 1 c1 [] (capped.zip outcomes)
    let cf := v2SaveNow clock r.2.1.length r.1
    ⟨cf, r.2.1 ++ [cf], r.2.2⟩

/-- The in-memory state of steam_api_scraper.py's `SteamScraper` (three
separate attributes; no timestamps). -/
structure V1State where
  apps_data : List (Nat × String) := []
  excluded_apps : Finset Nat := ∅
  error_apps : Finset Nat := ∅
  deriving DecidableEq

/-- Partition bookkeeping of one loop iteration of steam_api_scraper.py's
`SteamScraper.run` (same classification as v2). -/
def v1Step (s : V1State) (a : Nat) : V2Outcome → V1State
  | .noDetails => { s with error_apps := insert a s.error_apps }
  | .notSuccess => { s with excluded_apps := insert a s.excluded_apps }
  | .success d => { s with apps_data := dictInsert s.apps_data a d }
  | .raised _ => s

/-- One `save_progress` call of steam_api_scraper.py: outside test mode all
three blobs are written; in test mode only `apps_data` is (despite the
"skipping checkpoint saving" log line). -/
inductive V1Save where
  | full (s : V1State)
  | appsOnly (apps : List (Nat × String))
  deriving DecidableEq

def v1SaveProgress (testMode : Bool) (s : V1State) : V1Save :=
  if testMode then .appsOnly s.apps_data else .full s

/-- The `for i, appid in enumerate(remaining)` loop of steam_api_scraper.py's
`SteamScraper.run`.  There is no `try` around it: a `KeyboardInterrupt`
before step `i` (`kbAt = some i`) or a raised exception leaves the loop with
no further save.  Periodic saves happen when `(i + 1) % interval = 0` and the
run is not in test mode. -/
def v1LoopAux (testMode : Bool) (interval : Nat) (kbAt : Option Nat) :
    Nat → V1State → List V1Save → List (Nat × V2Outcome) →
    V1State × List V1Save × Option String
  | _, s, saves, [] => (s, saves, none)
  | i, s, saves, (a, o) :: rest =>
      if kbAt = some i then (s, saves, some "KeyboardInterrupt")
      else
        match o with
        | .raised m => (s, saves, some m)
        | _ =>
            let s' := v1Step s a o
            if testMode = false ∧ (i + 1) % interval = 0 then
              v1LoopAux testMode interval kbAt (i + 1) s'
                (saves ++ [v1SaveProgress testMode s']) rest
            else v1LoopAux testMode interval kbAt (i + 1) s' saves rest

/-- Method `get_remaining_apps` of steam_api_scraper.py: `list(all_ids - processed)`
in set-iteration order. -/
def v1GetRemaining (s : V1State) (all : Finset Nat)
    (enum : Finset Nat → List Nat) : List Nat :=
  enum (all \ ((dictKeys s.apps_data).toFinset ∪ s.excluded_apps ∪ s.error_apps))

/-- Method `SteamScraper.run` of steam_api_scraper.py: compute the remaining list,
truncate it in test mode, run the unprotected loop, and call `save_progress`
only when the loop completed normally — an escaping exception skips the final
save entirely. -/
def SteamScraper.run_v1 (testMode : Bool) (interval : Nat) (s0 : V1State)
    (all : Finset Nat) (enum : Finset Nat → List Nat)
    (outcomes : List V2Outcome) (testLimit : Nat) (kbAt : Option Nat) :
    V1State × List V1Save × Option String :=
  let remaining := v1GetRemaining s0 all enum
  let capped := if testMode then remaining.take testLimit else remaining
  match v1LoopAux testMode interval kbAt 0 s0 [] (capped.zip outcomes) with
  | (s, saves, none) => (s, saves ++ [v1SaveProgress testMode s], none)
  | (s, saves, some m) => (s, saves, some m)

/-! ## Normalization pipeline (insert_app_details.py `prepare_data`) -/

/-- A nested lookup reference in a raw payload
(`{'id': ..., 'description': ...}`). -/
structure RawRef where
  id : Nat
  description : String
  deriving DecidableEq

/-- The fields of one raw document that drive `prepare_data`'s dedup and
ordering behaviour.  The remaining scalar fields (release date, platforms,
metacritic score, ...) are only coerced copies inside the per-item games
tuple and are projected away; the games row is represented by
`(appid, name)`. -/
structure RawApp where
  type : String
  name : String
  genres : List RawRef
  categories : List RawRef
  developers : List String
  publishers : List String
  deriving DecidableEq

/-- The accumulators of `prepare_data` in insert_app_details.py.  `genres`
and `categories` are dicts keyed by the numeric id; `category_name_to_id` is
the name-to-first-id dict; `developers`/`publishers` are Python sets. -/
structure PrepState where
  games : List (Nat × String) := []
  genres : List (Nat × String) := []
  categories : List (Nat × String) := []
  category_name_to_id : List (String × Nat) := []
  developers : Finset String := ∅
  publishers : Finset String := ∅
  game_genres : List (Nat × Nat) := []
  game_categories : List (Nat × Nat) := []
  game_developers : List (Nat × String) := []
  game_publishers : List (Nat × String) := []
  deriving DecidableEq

/-- Statements `genres[gid] = genre['description']; game_genres.append((appid, gid))` —
keyed by the numeric id, with no name-based dedup and no canonicalization of
the junction row. -/
def addGenre (appid : Nat) (st : PrepState) (g : RawRef) : PrepState :=
  { st with genres := dictInsert st.genres g.id g.description,
            game_genres := st.game_genres ++ [(appid, g.id)] }

/-- The category branch: on first sight of a name, record it in
`category_name_to_id` and `categories`; always emit the junction row under
the canonical id `category_name_to_id[name]`. -/
def addCategory (appid : Nat) (st : PrepState) (cat : RawRef) : PrepState :=
  match dictLookup st.category_name_to_id cat.description with
  | some cid0 =>
      { st with game_categories := st.game_categories ++ [(appid, cid0)] }
  | none =>
      { st with
        category_name_to_id :=
          st.category_name_to_id ++ [(cat.description, cat.id)],
        categories := dictInsert st.categories cat.id cat.description,
        game_categories := st.game_categories ++ [(appid, cat.id)] }

/-- Statements `developers.add(dev); game_developers.append((appid, dev))`. -/
def addDeveloper (appid : Nat) (st : PrepState) (dev : String) : PrepState :=
  { st with developers := insert dev st.developers,
            game_developers := st.game_developers ++ [(appid, dev)] }

/-- Statements `publishers.add(pub); game_publishers.append((appid, pub))`. -/
def addPublisher (appid : Nat) (st : PrepState) (pub : String) : PrepState :=
  { st with publishers := insert pub st.publishers,
            game_publishers := st.game_publishers ++ [(appid, pub)] }

/-- The body of the `for appid, raw in data.items()` loop: skip falsy records
and records whose `type` is not `'game'`; append the games row; then run the
four nested loops. -/
def processApp (st : PrepState) (entry : Nat × Option RawApp) : PrepState :=
  match entry.2 with
  | none => st
  | some raw =>
      if raw.type ≠ "game" then st
      else
        let st1 := { st with games := st.games ++ [(entry.1, raw.name)] }
        let st2 := raw.genres.foldl (addGenre entry.1) st1
        let st3 := raw.categories.foldl (addCategory entry.1) st2
        let st4 := raw.developers.foldl (addDeveloper entry.1) st3
        raw.publishers.foldl (addPublisher entry.1) st4

/-- The main loop of `prepare_data` over `data.items()`. -/
def prepLoop (data : List (Nat × Option RawApp)) : PrepState :=
  data.foldl processApp {}

/-- The returned table dict of `prepare_data`. -/
structure PreparedData where
  games : List (Nat × String)
  genres : List (Nat × String)
  categories : List (Nat × String)
  developers : List String
  publishers : List String
  game_genres : List (Nat × Nat)
  game_categories : List (Nat × Nat)
  game_developers : List (Nat × String)
  game_publishers : List (Nat × String)
  deriving DecidableEq

/-- Function `prepare_data` of insert_app_details.py: run the loop, then materialize
`developers`/`publishers` via `list(set)` in iteration order `enumS` and
dedup `game_categories` via `list(set(game_categories))` in iteration order
`enumP`. -/
def prepare_data (enumS : Finset String → List String)
    (enumP : Finset (Nat × Nat) → List (Nat × Nat))
    (data : List (Nat × Option RawApp)) : PreparedData :=
  let st := prepLoop data
  { games := st.games, genres := st.genres, categories := st.categories,
    developers := enumS st.developers, publishers := enumS st.publishers,
    game_genres := st.game_genres,
    game_categories := enumP st.game_categories.toFinset,
    game_developers := st.game_developers,
    game_publishers := st.game_publishers }

/-! ## Normalization pipeline (insert_tags.py `prepare_data`) -/

/-- One tag entry of a scraped record (`{'tagid', 'name', 'count'}`). -/
structure TagEntry where
  tagid : Nat
  name : String
  count : Nat
  deriving DecidableEq

/-- One JSONL record consumed by insert_tags.py. -/
structure TagRecord where
  appid : Nat
  scraped_at : Option String
  tags : List TagEntry
  deriving DecidableEq

/-- The accumulators of insert_tags.py's `prepare_data`: the `tagid -> name`
dict and the `(appid, tagid, votes, scraped_at)` rows. -/
structure TagState where
  tags : List (Nat × String) := []
  game_tags : List (Nat × Nat × Nat × Option String) := []
  deriving DecidableEq

/-- The per-tag body: if the name is already registered under a different id,
fall back to the first id registered for that name (`existing_id`); then
`tags[tagid] = name` and append the junction row under the chosen id. -/
def addTag (appid : Nat) (scr : Option String) (st : TagState) (t : TagEntry) :
    TagState :=
  let others := (st.tags.filter (fun p => decide (p.1 ≠ t.tagid))).map Prod.snd
  let tid :=
    if t.name ∈ others then
      ((st.tags.filter (fun p => decide (p.2 = t.name))).map Prod.fst).headD
        t.tagid
    else t.tagid
  { st with tags := dictInsert st.tags tid t.name,
            game_tags := st.game_tags ++ [(appid, tid, t.count, scr)] }

/-- The per-record body: records with an empty tag list are skipped. -/
def tagRecordStep (st : TagState) (r : TagRecord) : TagState :=
  if r.tags = [] then st
  else r.tags.foldl (addTag r.appid r.scraped_at) st

/-- One iteration of the `seen`-set dedup loop at the end of insert_tags.py's
`prepare_data`: skip a row whose `(appid, tagid)` key was seen, otherwise
record the key and keep the row. -/
def dedupStep (acc : Finset (Nat × Nat) × List (Nat × Nat × Nat × Option String))
    (gt : Nat × Nat × Nat × Option String) :
    Finset (Nat × Nat) × List (Nat × Nat × Nat × Option String) :=
  if (gt.1, gt.2.1) ∈ acc.1 then acc
  else (insert (gt.1, gt.2.1) acc.1, acc.2 ++ [gt])

/-- The final `(appid, tagid)`-keyed first-occurrence dedup of
insert_tags.py's `prepare_data` (the explicit `seen`-set loop). -/
def dedupGameTags (l : List (Nat × Nat × Nat × Option String)) :
    List (Nat × Nat × Nat × Option String) :=
  (l.foldl dedupStep ((∅ : Finset (Nat × Nat)), [])).2

/-- insert_tags.py `prepare_data`: the tags table and the deduped junction
rows. -/
def prepareTags (records : List TagRecord) :
    List (Nat × String) × List (Nat × Nat × Nat × Option String) :=
  let st := records.foldl tagRecordStep {}
  (st.tags, dedupGameTags st.game_tags)

/-! ## Spec-side reference definitions for the normalization claims -/

/-- SPEC-SIDE: the (appid, category reference) pairs one input entry
contributes, in order. -/
def catStreamOf (e : Nat × Option RawApp) : List (Nat × RawRef) :=
  match e.2 with
  | some raw =>
      if raw.type ≠ "game" then [] else raw.categories.map (fun c => (e.1, c))
  | none => []

/-- SPEC-SIDE: the stream of (appid, category reference) pairs
`prepare_data` iterates over, in input order (game-typed records only). -/
def catStream (data : List (Nat × Option RawApp)) : List (Nat × RawRef) :=
  (data.map catStreamOf).flatten

/-- SPEC-SIDE: the (appid, genre reference) pairs one input entry
contributes, in order. -/
def genreStreamOf (e : Nat × Option RawApp) : List (Nat × RawRef) :=
  match e.2 with
  | some raw =>
      if raw.type ≠ "game" then [] else raw.genres.map (fun g => (e.1, g))
  | none => []

/-- SPEC-SIDE: the stream of (appid, genre reference) pairs, in input
order. -/
def genreStream (data : List (Nat × Option RawApp)) : List (Nat × RawRef) :=
  (data.map genreStreamOf).flatten

/-- SPEC-SIDE: the numeric id first observed for a name in a reference
stream. -/
def firstIdFor (s : List (Nat × RawRef)) (name : String) : Option Nat :=
  ((s.map Prod.snd).find? (fun r => decide (r.description = name))).map
    (fun r => r.id)

/-- SPEC-SIDE: junction rows as the spec words them — each row of `s`
references the id first observed in `full` for its record's name.  (The
default `e.2.id` is never consulted when the row's own reference occurs in
`full`.) -/
def canonFrom (full s : List (Nat × RawRef)) : List (Nat × Nat) :=
  s.map (fun e => (e.1, (firstIdFor full e.2.description).getD e.2.id))

/-- SPEC-SIDE: the games row (if any) one input entry contributes. -/
def specGamesRowsOf (e : Nat × Option RawApp) : List (Nat × String) :=
  match e.2 with
  | some raw => if raw.type = "game" then [(e.1, raw.name)] else []
  | none => []

/-- SPEC-SIDE: the games rows in first-encounter order of the input. -/
def specGamesRows (data : List (Nat × Option RawApp)) : List (Nat × String) :=
  (data.map specGamesRowsOf).flatten

/-- SPEC-SIDE: the keys of a stream in first-occurrence order. -/
def firstOccurrenceKeys : List Nat → List Nat
  | [] => []
  | k :: ks => k :: firstOccurrenceKeys (ks.filter (fun x => decide (x ≠ k)))
  termination_by l => l.length
  decreasing_by
    simp only [List.length_cons]
    exact Nat.lt_succ_of_le (List.length_filter_le _ _)

/-- SPEC-SIDE: first-occurrence dedup of tag junction rows by their
`(appid, tagid)` key. -/
def specDedupTags : List (Nat × Nat × Nat × Option String) →
    List (Nat × Nat × Nat × Option String)
  | [] => []
  | gt :: l =>
      gt ::
        specDedupTags (l.filter (fun y => decide ((y.1, y.2.1) ≠ (gt.1, gt.2.1))))
  termination_by l => l.length
  decreasing_by
    simp only [List.length_cons]
    exact Nat.lt_succ_of_le (List.length_filter_le _ _)

/-! ## Supporting lemmas: reducing `prepLoop` to per-stream folds -/

/-- Folding the category branch over a reference stream. -/
def foldCatStream (st : PrepState) (s : List (Nat × RawRef)) : PrepState :=
  s.foldl (fun st e => addCategory e.1 st e.2) st

/-- Folding the genre branch over a reference stream. -/
def foldGenreStream (st : PrepState) (s : List (Nat × RawRef)) : PrepState :=
  s.foldl (fun st e => addGenre e.1 st e.2) st

/-! ## Supporting lemmas: the tags table keeps names unique -/

/-- Invariant of the insert_tags accumulator: both the tag ids (keys) and the
tag names (values) of the `tags` dict are duplicate-free. -/
def TagInv (st : TagState) : Prop :=
  (dictKeys st.tags).Nodup ∧ (st.tags.map Prod.snd).Nodup

/-- Invariant of the insert_tags accumulator: every emitted junction row
references a tag id present (as a key) in the `tags` dict. -/
def GTInv (st : TagState) : Prop :=
  ∀ gt ∈ st.game_tags, gt.2.1 ∈ dictKeys st.tags

/-! ## Supporting lemmas: the categories table keeps names unique -/

/-- Invariant of the category accumulators: every name in the `categories`
table is registered in `category_name_to_id`, and the names in `categories`
are duplicate-free. -/
def CatTableInv (st : PrepState) : Prop :=
  (∀ x ∈ st.categories.map Prod.snd, x ∈ dictKeys st.category_name_to_id) ∧
  (st.categories.map Prod.snd).Nodup

/-! ## Supporting lemmas: genre rows and games rows in encounter order -/

/-- The effect of one dict assignment on the key sequence. -/
def updKeys (ks : List Nat) (k : Nat) : List Nat :=
  if k ∈ ks then ks else ks ++ [k]

/-! ## Claim C3 -/

/-- SPEC-SIDE: the stream of tag entries insert_tags.py iterates over, in
input order. -/
def tagStream (records : List TagRecord) : List TagEntry :=
  (records.map (fun r => r.tags)).flatten

/-- SPEC-SIDE: the numeric id first observed for a tag name in the input. -/
def firstTagIdFor (records : List TagRecord) (name : String) : Option Nat :=
  ((tagStream records).find? (fun t => decide (t.name = name))).map
    (fun t => t.tagid)

/-- The C3 counterexample batch: one game presenting the same genre name
under two different numeric ids. -/
def c3CexData : List (Nat × Option RawApp) :=
  [(7, some { type := "game", name := "G",
              genres := [⟨1, "Action"⟩, ⟨2, "Action"⟩],
              categories := [], developers := [], publishers := [] })]

/-- The C3 counterexample records for insert_tags.py: id 10 first carries
the name `"RPG"`, is then re-bound to `"Roleplay"` by `tags[10] =
"Roleplay"`, and afterwards `"RPG"` reappears under id 11. -/
def c3CexRecords : List TagRecord :=
  [{ appid := 1, scraped_at := none,
     tags := [⟨10, "RPG", 1⟩, ⟨10, "Roleplay", 2⟩, ⟨11, "RPG", 3⟩] }]

/-- Input for the C3 witness: the spec's own canonicalization scenario —
`{id: 10, name: "RPG"}` then `{id: 99, name: "RPG"}`. -/
def c3WitData : List (Nat × Option RawApp) :=
  [(5, some { type := "game", name := "W", genres := [],
              categories := [⟨10, "RPG"⟩], developers := [], publishers := [] }),
   (6, some { type := "game", name := "X", genres := [],
              categories := [⟨99, "RPG"⟩], developers := [], publishers := [] })]

/-! ## Claim C9 -/

/-- The C9 counterexample batch: one game listing developers `"b"` then
`"a"`. -/
def c9CexData : List (Nat × Option RawApp) :=
  [(1, some { type := "game", name := "G", genres := [], categories := [],
              developers := ["b", "a"], publishers := [] })]

/-! ## Supporting lemmas about dict insertion and the run-loop step -/

theorem dictKeys_dictInsert_toFinset {α β : Type} [DecidableEq α]
    (d : List (α × β)) (k : α) (v : β) :
    (dictKeys (dictInsert d k v)).toFinset = insert k (dictKeys d).toFinset := by
  induction d with
  | nil => simp [dictInsert, dictKeys]
  | cons p rest ih =>
      obtain ⟨k', v'⟩ := p
      by_cases h : k' = k
      · subst h
        simp [dictInsert, dictKeys]
      · simp only [dictInsert, if_neg h, dictKeys, List.map_cons, List.toFinset_cons] at ih ⊢
        rw [ih, Finset.Insert.comm]

theorem failedKeySet_fatal (c : SteamSpyCheckpoint) (a : Nat) (m : String) :
    failedKeySet (spyStep c a (.fatal m)) = insert a (failedKeySet c) := by
  simp [spyStep, failedKeySet, dictKeys_dictInsert_toFinset]

theorem doneSet_spyStep (c : SteamSpyCheckpoint) (a : Nat) (r : FetchResult) :
    doneSet (spyStep c a r) = insert a (doneSet c) := by
  cases r with
  | payload d =>
      simp [spyStep, doneSet, failedKeySet, Finset.insert_union]
  | nodata =>
      simp [spyStep, doneSet, failedKeySet, Finset.insert_union, Finset.union_insert]
  | fatal m =>
      have h := failedKeySet_fatal c a m
      simp only [doneSet, h, Finset.union_insert]
      simp [spyStep]

theorem app_ids_spyStep (c : SteamSpyCheckpoint) (a : Nat) (r : FetchResult) :
    (spyStep c a r).app_ids_to_scrape = c.app_ids_to_scrape := by
  cases r <;> rfl

theorem partitionsDisjoint_spyStep {c : SteamSpyCheckpoint} {a : Nat}
    (r : FetchResult) (hdisj : PartitionsDisjoint c) (ha : a ∉ doneSet c) :
    PartitionsDisjoint (spyStep c a r) := by
  obtain ⟨h1, h2, h3⟩ := hdisj
  have hac : a ∉ c.completed_ids := fun h =>
    ha (Finset.mem_union_left _ (Finset.mem_union_left _ h))
  have han : a ∉ c.no_data_ids := fun h =>
    ha (Finset.mem_union_left _ (Finset.mem_union_right _ h))
  have haf : a ∉ failedKeySet c := fun h => ha (Finset.mem_union_right _ h)
  cases r with
  | payload d =>
      refine ⟨?_, ?_, h3⟩
      · show insert a c.completed_ids ∩ c.no_data_ids = ∅
        rw [Finset.insert_inter_of_not_mem han, h1]
      · show insert a c.completed_ids ∩ failedKeySet c = ∅
        rw [Finset.insert_inter_of_not_mem haf, h2]
  | nodata =>
      refine ⟨?_, h2, ?_⟩
      · show c.completed_ids ∩ insert a c.no_data_ids = ∅
        rw [Finset.inter_insert_of_not_mem hac, h1]
      · show insert a c.no_data_ids ∩ failedKeySet c = ∅
        rw [Finset.insert_inter_of_not_mem haf, h3]
  | fatal m =>
      have hf := failedKeySet_fatal c a m
      refine ⟨h1, ?_, ?_⟩
      · show (spyStep c a (.fatal m)).completed_ids ∩
            failedKeySet (spyStep c a (.fatal m)) = ∅
        have : (spyStep c a (.fatal m)).completed_ids = c.completed_ids := rfl
        rw [this, hf, Finset.inter_insert_of_not_mem hac, h2]
      · show (spyStep c a (.fatal m)).no_data_ids ∩
            failedKeySet (spyStep c a (.fatal m)) = ∅
        have : (spyStep c a (.fatal m)).no_data_ids = c.no_data_ids := rfl
        rw [this, hf, Finset.inter_insert_of_not_mem han, h3]

theorem spyRunLoop_inv (l : List (Nat × FetchResult)) (c : SteamSpyCheckpoint)
    (hnd : (l.map Prod.fst).Nodup)
    (hfresh : ∀ a ∈ l.map Prod.fst, a ∉ doneSet c)
    (hdisj : PartitionsDisjoint c) :
    PartitionsDisjoint (spyRunLoop c l) ∧
    doneSet (spyRunLoop c l) = doneSet c ∪ (l.map Prod.fst).toFinset ∧
    (spyRunLoop c l).app_ids_to_scrape = c.app_ids_to_scrape := by
  induction l generalizing c with
  | nil => exact ⟨hdisj, by simp [spyRunLoop], rfl⟩
  | cons p rest ih =>
      obtain ⟨a, r⟩ := p
      simp only [List.map_cons, List.nodup_cons] at hnd
      have ha : a ∉ doneSet c := hfresh a (by simp)
      have hstep := partitionsDisjoint_spyStep r hdisj ha
      have hdone := doneSet_spyStep c a r
      have hfresh' : ∀ b ∈ rest.map Prod.fst, b ∉ doneSet (spyStep c a r) := by
        intro b hb
        rw [hdone, Finset.mem_insert]
        rintro (hba | hbc)
        · exact hnd.1 (hba ▸ hb)
        · exact hfresh b (by simp [hb]) hbc
      obtain ⟨ih1, ih2, ih3⟩ := ih (spyStep c a r) hnd.2 hfresh' hstep
      refine ⟨ih1, ?_, ?_⟩
      · rw [show spyRunLoop c ((a, r) :: rest) = spyRunLoop (spyStep c a r) rest from rfl,
          ih2, hdone]
        simp [Finset.insert_union, Finset.union_insert]
      · rw [show spyRunLoop c ((a, r) :: rest) = spyRunLoop (spyStep c a r) rest from rfl,
          ih3, app_ids_spyStep]

theorem mem_get_pending {c : SteamSpyCheckpoint} {a : Nat} :
    a ∈ c.get_pending ↔ a ∈ c.app_ids_to_scrape ∧ a ∉ doneSet c := by
  simp [SteamSpyCheckpoint.get_pending]

theorem get_pending_nodup {c : SteamSpyCheckpoint}
    (h : c.app_ids_to_scrape.Nodup) : c.get_pending.Nodup :=
  h.filter _

theorem coversUniverse_of_done_subset (c : SteamSpyCheckpoint)
    (h : doneSet c ⊆ universeSet c) : CoversUniverse c := by
  unfold CoversUniverse
  have hp : c.get_pending.toFinset = universeSet c \ doneSet c := by
    apply Finset.ext
    intro a
    simp [mem_get_pending, universeSet, Finset.mem_sdiff]
  rw [show c.get_pending.toFinset ∪ c.completed_ids ∪ c.no_data_ids ∪ failedKeySet c =
      c.get_pending.toFinset ∪ doneSet c by simp [doneSet, Finset.union_assoc], hp,
    Finset.sdiff_union_of_subset h]

theorem map_fst_zip_sublist {α β : Type} (p : List α) (o : List β) :
    ((p.zip o).map Prod.fst).Sublist p := by
  induction p generalizing o with
  | nil => simp
  | cons a p ih =>
      cases o with
      | nil => simp
      | cons b o =>
          simpa using List.Sublist.cons₂ a (ih o)

theorem mark_started_partition_fields (c : SteamSpyCheckpoint) (now : Nat) :
    (c.mark_started now).completed_ids = c.completed_ids ∧
    (c.mark_started now).no_data_ids = c.no_data_ids ∧
    (c.mark_started now).failed_ids = c.failed_ids ∧
    (c.mark_started now).app_ids_to_scrape = c.app_ids_to_scrape := by
  unfold SteamSpyCheckpoint.mark_started
  split <;> exact ⟨rfl, rfl, rfl, rfl⟩

theorem doneSet_mark_started (c : SteamSpyCheckpoint) (now : Nat) :
    doneSet (c.mark_started now) = doneSet c := by
  unfold SteamSpyCheckpoint.mark_started
  split <;> rfl

theorem get_pending_mark_started (c : SteamSpyCheckpoint) (now : Nat) :
    (c.mark_started now).get_pending = c.get_pending := by
  unfold SteamSpyCheckpoint.mark_started
  split <;> rfl

theorem universeSet_mark_started (c : SteamSpyCheckpoint) (now : Nat) :
    universeSet (c.mark_started now) = universeSet c := by
  unfold SteamSpyCheckpoint.mark_started
  split <;> rfl

theorem partitionsDisjoint_mark_started (c : SteamSpyCheckpoint) (now : Nat) :
    PartitionsDisjoint (c.mark_started now) ↔ PartitionsDisjoint c := by
  unfold SteamSpyCheckpoint.mark_started
  split <;> exact Iff.rfl

/-! ## Claim C1 -/

/-- C1: the claim as stated is false.  From an initial state whose partitions
are pairwise disjoint (universe `[5, 5]`, `failed = {7 ↦ "x"}`), the run loop
reaches a state where `completed ∩ keys(failed) = {5} ≠ ∅` and where the
partition union `{5, 7}` differs from the universe `{5}`: the claim omits
that the universe must be duplicate-free and must contain the terminal
partitions. -/
theorem c1_run_invariant_counterexample :
    PartitionsDisjoint c1CexStart ∧
    ¬ (PartitionsDisjoint (spyRunLoop (c1CexStart.mark_started 0) c1CexTrace) ∧
       CoversUniverse (spyRunLoop (c1CexStart.mark_started 0) c1CexTrace)) := by
  constructor
  · decide
  · decide

/-- C1 (amended): for every harvest state reachable by the engine's run loop
from an initial state whose partitions are pairwise disjoint, whose universe
sequence has no duplicate IDs, and whose terminal partitions are contained in
the universe, the sets completed, excluded, and the keys of failed remain
pairwise disjoint after every per-ID step, and pending together with
completed, excluded, and the keys of failed equals the universe of target
IDs.  (Reachable states are `spyRunLoop` applied to a prefix of the zip of
`get_pending` with the fetch outcomes; prefixes cover both the test-mode
truncation and interruption at any step.) -/
theorem c1_run_loop_preserves_invariant (c0 : SteamSpyCheckpoint) (now k : Nat)
    (outcomes : List FetchResult)
    (hnd : c0.app_ids_to_scrape.Nodup)
    (hdisj : PartitionsDisjoint c0)
    (hsub : doneSet c0 ⊆ universeSet c0) :
    PartitionsDisjoint (spyRunLoop (c0.mark_started now)
        (((c0.mark_started now).get_pending.zip outcomes).take k)) ∧
    CoversUniverse (spyRunLoop (c0.mark_started now)
        (((c0.mark_started now).get_pending.zip outcomes).take k)) := by
  have hfields := mark_started_partition_fields c0 now
  have hsubl : ((((c0.mark_started now).get_pending.zip outcomes).take k).map
      Prod.fst).Sublist (c0.mark_started now).get_pending :=
    ((List.take_sublist k _).map Prod.fst).trans (map_fst_zip_sublist _ _)
  have hndp : (c0.mark_started now).get_pending.Nodup :=
    get_pending_nodup (hfields.2.2.2 ▸ hnd)
  have hndl := hndp.sublist hsubl
  have hfresh : ∀ a ∈ (((c0.mark_started now).get_pending.zip outcomes).take k).map
      Prod.fst, a ∉ doneSet (c0.mark_started now) := by
    intro a hal
    exact (mem_get_pending.mp (hsubl.subset hal)).2
  have hdisj1 : PartitionsDisjoint (c0.mark_started now) :=
    (partitionsDisjoint_mark_started c0 now).mpr hdisj
  obtain ⟨h1, h2, h3⟩ := spyRunLoop_inv _ _ hndl hfresh hdisj1
  refine ⟨h1, ?_⟩
  apply coversUniverse_of_done_subset
  have huniv : universeSet (spyRunLoop (c0.mark_started now)
      (((c0.mark_started now).get_pending.zip outcomes).take k)) = universeSet c0 := by
    unfold universeSet
    rw [h3, hfields.2.2.2]
  rw [h2, huniv]
  apply Finset.union_subset
  · rw [doneSet_mark_started]
    exact hsub
  · intro a ha
    rw [List.mem_toFinset] at ha
    have hmem := (mem_get_pending.mp (hsubl.subset ha)).1
    rw [hfields.2.2.2] at hmem
    simpa [universeSet] using hmem

/-- Witness for C1 (amended) at a concrete state and fetch trace. -/
theorem c1_run_loop_preserves_invariant_witness :
    PartitionsDisjoint (spyRunLoop (c1WitState.mark_started 5)
        (((c1WitState.mark_started 5).get_pending.zip [.nodata, .fatal "e"]).take 2)) ∧
    CoversUniverse (spyRunLoop (c1WitState.mark_started 5)
        (((c1WitState.mark_started 5).get_pending.zip [.nodata, .fatal "e"]).take 2)) :=
  c1_run_loop_preserves_invariant c1WitState 5 2 [.nodata, .fatal "e"]
    (by decide) (by decide) (by decide)

/-! ## Claim C5 -/

/-- C5: the claim as stated is false for `SteamAPICheckpoint.get_pending`
(steam_api_scraper_v2.py).  With an empty checkpoint and the universe
sequence `[2, 1]`, the pending list is the whole universe, so returning the
ids "in the same relative order as they appear in the universe sequence"
would force the output `[2, 1]`; the code materializes the Python set
difference `all_app_ids - processed`, whose iteration order ignores any
universe sequence — under the valid (and for this small-int set, actual)
increasing iteration order it returns `[1, 2]`, which is not even a sublist
of `[2, 1]`. -/
theorem c5_get_pending_order_counterexample :
    ValidEnum (probeEnum [1, 2]) (({2, 1} : Finset Nat) \ v2Processed {}) ∧
    SteamAPICheckpoint.get_pending {} {2, 1} (probeEnum [1, 2]) = [1, 2] ∧
    ¬ ([1, 2] : List Nat).Sublist [2, 1] := by
  refine ⟨by decide, by decide, by decide⟩

/-- C5 (amended): `SteamSpyCheckpoint.get_pending` (and the identical
list-comprehension implementations in the store and tags scrapers) returns
exactly the ids of the universe that are in none of completed, excluded, or
the keys of failed, in the universe sequence's relative order;
`SteamAPICheckpoint.get_pending` returns exactly the given ids not yet
processed, but in unspecified set-iteration order rather than any universe
order. -/
theorem c5_get_pending_membership_and_order :
    (∀ (c : SteamSpyCheckpoint) (a : Nat),
        a ∈ c.get_pending ↔ a ∈ c.app_ids_to_scrape ∧
          ¬ (a ∈ c.completed_ids ∨ a ∈ c.no_data_ids ∨ a ∈ failedKeySet c)) ∧
    (∀ c : SteamSpyCheckpoint, c.get_pending.Sublist c.app_ids_to_scrape) ∧
    (∀ (c : SteamAPICheckpoint) (all : Finset Nat) (enum : Finset Nat → List Nat),
        ValidEnum enum (all \ v2Processed c) →
        ∀ a, a ∈ c.get_pending all enum ↔ a ∈ all ∧ a ∉ v2Processed c) := by
  refine ⟨?_, ?_, ?_⟩
  · intro c a
    rw [mem_get_pending]
    simp [doneSet, Finset.mem_union, or_assoc]
  · intro c
    exact List.filter_sublist _
  · intro c all enum henum a
    have : a ∈ c.get_pending all enum ↔ a ∈ (enum (all \ v2Processed c)).toFinset := by
      simp [SteamAPICheckpoint.get_pending]
    rw [this, henum.1, Finset.mem_sdiff]

/-- Witness for C5 (amended), discharging the valid-enumeration hypothesis at
a concrete checkpoint and id set. -/
theorem c5_get_pending_membership_and_order_witness :
    3 ∈ SteamAPICheckpoint.get_pending {} {3} (probeEnum [3]) ↔
      3 ∈ ({3} : Finset Nat) ∧ 3 ∉ v2Processed {} :=
  c5_get_pending_membership_and_order.2.2 {} {3} (probeEnum [3]) (by decide) 3

/-! ## Checkpoint store (checkpoint.py) -/

theorem decodeCkpt_encodeCkpt (enum : Finset Nat → List Nat)
    (c : SteamSpyCheckpoint)
    (h1 : ValidEnum enum c.completed_ids) (h2 : ValidEnum enum c.no_data_ids) :
    decodeCkpt (encodeCkpt enum c) = some c := by
  simp [encodeCkpt, decodeCkpt, h1.1, h2.1]

theorem dictLookup_dictInsert_self {α β : Type} [DecidableEq α]
    (d : List (α × β)) (k : α) (v : β) :
    dictLookup (dictInsert d k v) k = some v := by
  induction d with
  | nil => simp [dictInsert, dictLookup]
  | cons p rest ih =>
      obtain ⟨k', v'⟩ := p
      by_cases h : k' = k
      · subst h
        simp [dictInsert, dictLookup]
      · simp [dictInsert, dictLookup, h, ih]

/-! ## Claim C2 -/

/-- C2: saving a harvest state under a name and loading that name returns a
value equal to the state as the caller holds it after the save call (save
updates `last_saved_at` on the caller's object in place and pickles that
exact value); timestamps, the id list, both id sets, and the failed mapping
survive the round trip without loss, for every valid set-iteration order the
pickle stream may use. -/
theorem c2_checkpoint_roundtrip (enum : Finset Nat → List Nat)
    (st : List (String × PVal)) (name : String)
    (c : SteamSpyCheckpoint) (now : Nat)
    (h1 : ValidEnum enum c.completed_ids) (h2 : ValidEnum enum c.no_data_ids) :
    CheckpointManager.load (CheckpointManager.save enum st name (.ckpt c) now).1 name =
      .ok { c with last_saved_at := some now } ∧
    (CheckpointManager.save enum st name (.ckpt c) now).2 =
      .ckpt { c with last_saved_at := some now } := by
  constructor
  · unfold CheckpointManager.load CheckpointManager.save
    simp only [hasLastSavedAt, touchLastSaved, encodeArg, dictLookup_dictInsert_self,
      if_pos]
    rw [decodeCkpt_encodeCkpt enum { c with last_saved_at := some now } h1 h2]
  · rfl

/-- Witness for C2 at a concrete store, state, and iteration order. -/
theorem c2_checkpoint_roundtrip_witness :
    CheckpointManager.load
        (CheckpointManager.save (probeEnum [4]) [] "steamspy" (.ckpt c2WitState) 7).1
        "steamspy" =
      .ok { c2WitState with last_saved_at := some 7 } ∧
    (CheckpointManager.save (probeEnum [4]) [] "steamspy" (.ckpt c2WitState) 7).2 =
      .ckpt { c2WitState with last_saved_at := some 7 } :=
  c2_checkpoint_roundtrip (probeEnum [4]) [] "steamspy" c2WitState 7
    (by decide) (by decide)

/-! ## Claim C10 -/

/-- C10: `CheckpointManager.save` mutates an argument that has a
`last_saved_at` attribute in place, setting exactly that field to the save
time and leaving `started_at`, the universe list, the partition sets, and the
failed mapping untouched, and pickles the mutated value; an argument without
the attribute is persisted unmodified. -/
theorem c10_save_touches_only_last_saved_at (enum : Finset Nat → List Nat)
    (st : List (String × PVal)) (name : String) (now : Nat) :
    (∀ c : SteamSpyCheckpoint,
      (CheckpointManager.save enum st name (.ckpt c) now).2 =
        .ckpt { c with last_saved_at := some now } ∧
      ({ c with last_saved_at := some now } : SteamSpyCheckpoint).last_saved_at =
        some now ∧
      ({ c with last_saved_at := some now } : SteamSpyCheckpoint).started_at =
        c.started_at ∧
      ({ c with last_saved_at := some now } : SteamSpyCheckpoint).app_ids_to_scrape =
        c.app_ids_to_scrape ∧
      ({ c with last_saved_at := some now } : SteamSpyCheckpoint).completed_ids =
        c.completed_ids ∧
      ({ c with last_saved_at := some now } : SteamSpyCheckpoint).no_data_ids =
        c.no_data_ids ∧
      ({ c with last_saved_at := some now } : SteamSpyCheckpoint).failed_ids =
        c.failed_ids ∧
      (CheckpointManager.save enum st name (.ckpt c) now).1 =
        dictInsert st name (encodeCkpt enum { c with last_saved_at := some now })) ∧
    (∀ v : PVal,
      CheckpointManager.save enum st name (.plain v) now =
        (dictInsert st name v, .plain v)) :=
  ⟨fun _ => ⟨rfl, rfl, rfl, rfl, rfl, rfl, rfl, rfl⟩, fun _ => rfl⟩

/-! ## Claim C6 -/

/-- C6: the claim as stated is false.  `CheckpointManager.save` opens the
checkpoint file with mode `'wb'`, which truncates it in place before the new
pickle stream is written; a read between the truncation and the completion of
the write observes the empty file — neither the last complete value (`[9, 9]`
here) nor the new one.  The write is not an atomic replace. -/
theorem c6_atomic_replace_counterexample :
    [] ∈ saveObservable (probeEnum []) [9, 9] {} ∧
    ([] : List Nat) ≠ [9, 9] ∧
    ([] : List Nat) ≠ serializeCkpt (probeEnum []) {} := by
  refine ⟨by decide, by decide, by decide⟩

/-- C6 (amended): `save(N, value)` replaces any prior content under `N` by
truncating the checkpoint file in place and writing the new pickle stream
sequentially; a read that runs only after save completes observes the new
complete value (the last observable state), but a read concurrent with a save
— or after a crash during one — can observe a truncated portion of the new
value instead of the last complete value written. -/
theorem c6_save_truncate_then_write (enum : Finset Nat → List Nat)
    (old : List Nat) (c : SteamSpyCheckpoint) :
    (saveObservable enum old c).getLast? = some (serializeCkpt enum c) ∧
    ∀ s ∈ saveObservable enum old c,
      s = old ∨ ∃ k, s = (serializeCkpt enum c).take k := by
  constructor
  · show (old :: (_ ++ [serializeCkpt enum c])).getLast? = _
    rw [← List.cons_append, List.getLast?_concat]
  · intro s hs
    simp only [saveObservable, writeObservable, List.mem_cons, List.mem_append,
      List.mem_map, List.mem_range, List.mem_singleton, List.not_mem_nil,
      or_false] at hs
    rcases hs with h | ⟨k, _, hk⟩ | h
    · exact Or.inl h
    · exact Or.inr ⟨k, hk.symm⟩
    · exact Or.inr ⟨(serializeCkpt enum c).length, by rw [h, List.take_length]⟩

/-- Witness for C6 (amended): the empty file state observable mid-save is a
truncation of the new value. -/
theorem c6_save_truncate_then_write_witness :
    ([] : List Nat) = [9, 9] ∨
      ∃ k, ([] : List Nat) = (serializeCkpt (probeEnum []) {}).take k :=
  (c6_save_truncate_then_write (probeEnum []) [9, 9] {}).2 [] (by decide)

/-! ## Transport layer (the fetch functions' retry loops) -/

theorem spyFetchAux_count_le (appid : Nat)
    (resp : Nat → HttpEvent (Option SpyJson)) :
    ∀ r i, (spyFetchAux appid resp i r).2 ≤ r := by
  intro r
  induction r with
  | zero => intro i; simp [spyFetchAux]
  | succ r ih =>
      intro i
      cases hr : resp i with
      | ok b =>
          cases b <;> simp [spyFetchAux, hr]
      | status code =>
          by_cases h429 : code = 429
          · simp only [spyFetchAux, hr, h429, if_pos]
            exact Nat.succ_le_succ (ih (i + 1))
          · simp [spyFetchAux, hr, h429]
      | timeout =>
          simp only [spyFetchAux, hr]
          exact Nat.succ_le_succ (ih (i + 1))
      | netError m => simp [spyFetchAux, hr]

theorem storeFetchAux_count_le (appid : Nat)
    (resp : Nat → HttpEvent (Option String)) :
    ∀ r i, (storeFetchAux appid resp i r).2 ≤ r := by
  intro r
  induction r with
  | zero => intro i; simp [storeFetchAux]
  | succ r ih =>
      intro i
      cases hr : resp i with
      | ok b =>
          cases b <;> simp [storeFetchAux, hr]
      | status code =>
          by_cases h404 : code = 404
          · simp [storeFetchAux, hr, h404]
          · by_cases hretry : code = 429 ∨ code = 403
            · simp only [storeFetchAux, hr, h404, hretry, if_neg, if_pos,
                ite_false, ite_true]
              exact Nat.succ_le_succ (ih (i + 1))
            · simp [storeFetchAux, hr, h404, hretry]
      | timeout =>
          simp only [storeFetchAux, hr]
          exact Nat.succ_le_succ (ih (i + 1))
      | netError m => simp [storeFetchAux, hr]

theorem spyFetchAux_exhaust (appid : Nat)
    (resp : Nat → HttpEvent (Option SpyJson))
    (h : ∀ j, resp j = .status 429 ∨ resp j = .timeout) :
    ∀ r i, spyFetchAux appid resp i r =
      (.fatal ("Max retries exceeded for appid " ++ toString appid), r) := by
  intro r
  induction r with
  | zero => intro i; rfl
  | succ r ih =>
      intro i
      rcases h i with hr | hr <;>
        simp [spyFetchAux, hr, ih (i + 1)]

theorem v2Retries_const429 : ∀ n, v2Retries (fun _ => .status 429) n = true := by
  intro n
  induction n with
  | zero => rfl
  | succ n ih => simp [v2Retries, v2RetryEvent, ih]

theorem v2FetchFuel_const429 :
    ∀ f i, v2FetchFuel (fun _ => .status 429) f i = none := by
  intro f
  induction f with
  | zero => intro i; rfl
  | succ f ih => intro i; simp [v2FetchFuel, ih]

/-! ## Claim C7 -/

/-- C7: the claim as stated is false for `SteamAPI.get_app_details`
(steam_api_scraper_v2.py, cited by the spec's fetch contract).  Its scraper
configuration has no `max_retries` at all, and the function retries 429 (and
403) by calling itself with no attempt counter: against a persistently
rate-limited endpoint a 4th attempt occurs (exceeding the `max_retries = 3`
the other scrapers configure) and the recursion never returns within 10
attempts either — no bound is exceeded-and-surfaced as the claim requires. -/
theorem c7_bounded_retries_counterexample :
    v2Retries (fun _ => .status 429) 3 = true ∧
    v2FetchFuel (fun _ => .status 429) 10 0 = none := by
  exact ⟨by decide, by decide⟩

/-- C7 (amended): `SteamSpyAPI.get_app_details` and
`SteamStoreAPI.get_store_data` perform at most `max_retries` HTTP attempts
(429 and timeout — plus 403 in the store scraper — each consume one attempt)
and, when every attempt is consumed by a retryable response, surface a fatal
"max retries exceeded" error; `SteamAPI.get_app_details` in
steam_api_scraper_v2.py instead retries 429 and 403 by unbounded recursion:
every attempt count is reached and no amount of fuel makes it return. -/
theorem c7_retry_bounds :
    (∀ (m appid i : Nat) (resp : Nat → HttpEvent (Option SpyJson)),
        (spyFetchAux appid resp i m).2 ≤ m) ∧
    (∀ (m appid i : Nat) (resp : Nat → HttpEvent (Option String)),
        (storeFetchAux appid resp i m).2 ≤ m) ∧
    (∀ (m appid : Nat) (resp : Nat → HttpEvent (Option SpyJson)),
        (∀ j, resp j = .status 429 ∨ resp j = .timeout) →
        SteamSpyAPI.get_app_details m appid resp =
          (.fatal ("Max retries exceeded for appid " ++ toString appid), m)) ∧
    (∀ n, v2Retries (fun _ => .status 429) n = true) ∧
    (∀ f i, v2FetchFuel (fun _ => .status 429) f i = none) :=
  ⟨fun m appid i resp => spyFetchAux_count_le appid resp m i,
   fun m appid i resp => storeFetchAux_count_le appid resp m i,
   fun m appid resp h => spyFetchAux_exhaust appid resp h m 0,
   v2Retries_const429,
   v2FetchFuel_const429⟩

/-- Witness for C7 (amended): three attempts against a permanently
rate-limited endpoint end in the fatal "max retries exceeded" error. -/
theorem c7_retry_bounds_witness :
    SteamSpyAPI.get_app_details 3 7 (fun _ => .status 429) =
      (.fatal ("Max retries exceeded for appid " ++ toString 7), 3) :=
  c7_retry_bounds.2.2.1 3 7 (fun _ => .status 429) (fun _ => Or.inl rfl)

/-! ## Run loops of steam_api_scraper_v2.py and steam_api_scraper.py -/

theorem run_v1_eq (testMode : Bool) (interval : Nat) (s0 : V1State)
    (all : Finset Nat) (enum : Finset Nat → List Nat)
    (outcomes : List V2Outcome) (testLimit : Nat) (kbAt : Option Nat) :
    SteamScraper.run_v1 testMode interval s0 all enum outcomes testLimit kbAt =
      match v1LoopAux testMode interval kbAt 0 s0 []
        ((if testMode then (v1GetRemaining s0 all enum).take testLimit
          else v1GetRemaining s0 all enum).zip outcomes) with
      | (s, saves, none) => (s, saves ++ [v1SaveProgress testMode s], none)
      | (s, saves, some m) => (s, saves, some m) := rfl

/-! ## Claim C4 -/

/-- C4: the claim as stated is false for steam_api_scraper.py's
`SteamScraper.run` (a cited implementation of the engine's run).  Its loop
has no `try/finally`: a `KeyboardInterrupt` after the first of two pending
ids ends the run with the save list empty even though the in-memory state
has progressed — nothing is persisted before the run returns. -/
theorem c4_save_on_exit_counterexample :
    (SteamScraper.run_v1 false 2500 {} {1, 2} (probeEnum [1, 2])
        [.success "d", .success "d"] 0 (some 1)).2.1 = [] ∧
    (SteamScraper.run_v1 false 2500 {} {1, 2} (probeEnum [1, 2])
        [.success "d", .success "d"] 0 (some 1)).2.2 = some "KeyboardInterrupt" ∧
    (SteamScraper.run_v1 false 2500 {} {1, 2} (probeEnum [1, 2])
        [.success "d", .success "d"] 0 (some 1)).1 ≠ ({} : V1State) := by
  refine ⟨by decide, by decide, by decide⟩

/-- C4 (amended): in steam_api_scraper_v2.py (and the SteamSpy and store
scrapers, which share the structure) the final checkpoint save runs in a
`finally` block, so whenever the pending list is non-empty the last persisted
value equals the state the run returns with — on normal exhaustion, on
interruption, and even when another exception propagates; a run whose pending
list is already empty returns without saving at all.  In steam_api_scraper.py
the final save runs only after normal loop completion: an interruption ends
the run with only the periodic saves (none at all, when the interrupt comes
before the first checkpoint interval elapses). -/
theorem c4_save_on_exit :
    (∀ (interval : Nat) (clock : Nat → Nat) (c0 : SteamAPICheckpoint)
        (now : Nat) (all : Finset Nat) (enum : Finset Nat → List Nat)
        (outcomes : List V2Outcome) (testLimit kbAt : Option Nat),
        (c0.mark_started now).get_pending all enum ≠ [] →
        (SteamScraper.run_v2 interval clock c0 now all enum outcomes testLimit
            kbAt).saves.getLast? =
          some (SteamScraper.run_v2 interval clock c0 now all enum outcomes
            testLimit kbAt).final) ∧
    (∀ (interval : Nat) (clock : Nat → Nat) (c0 : SteamAPICheckpoint)
        (now : Nat) (all : Finset Nat) (enum : Finset Nat → List Nat)
        (outcomes : List V2Outcome) (testLimit kbAt : Option Nat),
        (c0.mark_started now).get_pending all enum = [] →
        SteamScraper.run_v2 interval clock c0 now all enum outcomes testLimit
            kbAt = ⟨c0.mark_started now, [], none⟩) ∧
    (∀ (testMode : Bool) (interval : Nat) (s0 : V1State) (all : Finset Nat)
        (enum : Finset Nat → List Nat) (outcomes : List V2Outcome)
        (testLimit : Nat) (kbAt : Option Nat),
        (SteamScraper.run_v1 testMode interval s0 all enum outcomes testLimit
            kbAt).2.2 = none →
        (SteamScraper.run_v1 testMode interval s0 all enum outcomes testLimit
            kbAt).2.1.getLast? =
          some (v1SaveProgress testMode
            (SteamScraper.run_v1 testMode interval s0 all enum outcomes
              testLimit kbAt).1)) ∧
    (∀ (interval : Nat) (s0 : V1State) (a : Nat) (d : String)
        (y : Nat × V2Outcome) (ys : List (Nat × V2Outcome)),
        2 ≤ interval →
        v1LoopAux false interval (some 1) 0 s0 [] ((a, .success d) :: y :: ys) =
          (v1Step s0 a (.success d), [], some "KeyboardInterrupt")) := by
  refine ⟨?_, ?_, ?_, ?_⟩
  · intro interval clock c0 now all enum outcomes testLimit kbAt h
    unfold SteamScraper.run_v2
    rw [if_neg h]
    simp [List.getLast?_concat]
  · intro interval clock c0 now all enum outcomes testLimit kbAt h
    unfold SteamScraper.run_v2
    rw [if_pos h]
  · intro testMode interval s0 all enum outcomes testLimit kbAt
    rw [run_v1_eq]
    rcases hl : v1LoopAux testMode interval kbAt 0 s0 []
        ((if testMode = true then (v1GetRemaining s0 all enum).take testLimit
          else v1GetRemaining s0 all enum).zip outcomes) with ⟨s, saves, ab⟩
    cases ab with
    | none =>
        intro _
        simp [List.getLast?_concat]
    | some m =>
        intro h
        simp at h
  · intro interval s0 a d y ys h
    have h1 : (1 : Nat) % interval = 1 := Nat.mod_eq_of_lt h
    simp [v1LoopAux, v1Step, h1]

/-- Witness for C4 (amended): a one-id v2 run ends with the final state as
the last saved value. -/
theorem c4_save_on_exit_witness :
    (SteamScraper.run_v2 100 (fun t => t) {} 3 {1} (probeEnum [1])
        [.success "d"] none none).saves.getLast? =
      some (SteamScraper.run_v2 100 (fun t => t) {} 3 {1} (probeEnum [1])
        [.success "d"] none none).final :=
  c4_save_on_exit.1 100 (fun t => t) {} 3 {1} (probeEnum [1]) [.success "d"]
    none none (by decide)

/-! ## Supporting lemmas for failure recording (claim C8) -/

theorem dictLookup_dictInsert_ne {α β : Type} [DecidableEq α]
    (d : List (α × β)) {k a : α} (v : β) (h : k ≠ a) :
    dictLookup (dictInsert d k v) a = dictLookup d a := by
  induction d with
  | nil => simp [dictInsert, dictLookup, h]
  | cons p rest ih =>
      obtain ⟨k', v'⟩ := p
      by_cases hk : k' = k
      · subst hk
        simp [dictInsert, dictLookup, h]
      · by_cases ha : k' = a
        · subst ha
          simp [dictInsert, dictLookup, hk]
        · simp [dictInsert, dictLookup, hk, ha, ih]

theorem spyStep_failed_lookup_ne (c : SteamSpyCheckpoint) (x : Nat)
    (r : FetchResult) {a : Nat} (h : x ≠ a) :
    dictLookup (spyStep c x r).failed_ids a = dictLookup c.failed_ids a := by
  cases r with
  | payload d => rfl
  | nodata => rfl
  | fatal m => exact dictLookup_dictInsert_ne c.failed_ids m h

theorem spyRunLoop_failed_lookup_of_not_mem (l : List (Nat × FetchResult))
    (c : SteamSpyCheckpoint) {a : Nat} (h : a ∉ l.map Prod.fst) :
    dictLookup (spyRunLoop c l).failed_ids a = dictLookup c.failed_ids a := by
  induction l generalizing c with
  | nil => rfl
  | cons p rest ih =>
      obtain ⟨x, r⟩ := p
      simp only [List.map_cons, List.mem_cons] at h
      push_neg at h
      rw [show spyRunLoop c ((x, r) :: rest) = spyRunLoop (spyStep c x r) rest
          from rfl,
        ih _ h.2, spyStep_failed_lookup_ne c x r (fun he => h.1 he.symm)]

theorem spyStep_completed_mono (c : SteamSpyCheckpoint) (x : Nat)
    (r : FetchResult) : c.completed_ids ⊆ (spyStep c x r).completed_ids := by
  cases r with
  | payload d => exact Finset.subset_insert _ _
  | nodata => exact Finset.Subset.refl _
  | fatal m => exact Finset.Subset.refl _

theorem spyRunLoop_completed_mono (l : List (Nat × FetchResult))
    (c : SteamSpyCheckpoint) :
    c.completed_ids ⊆ (spyRunLoop c l).completed_ids := by
  induction l generalizing c with
  | nil => exact Finset.Subset.refl _
  | cons p rest ih =>
      obtain ⟨x, r⟩ := p
      exact (spyStep_completed_mono c x r).trans (ih (spyStep c x r))

theorem spyRunLoop_fatal_lookup (l : List (Nat × FetchResult)) :
    ∀ (c : SteamSpyCheckpoint) (a : Nat) (m : String),
    (l.map Prod.fst).Nodup → (a, FetchResult.fatal m) ∈ l →
    dictLookup (spyRunLoop c l).failed_ids a = some m := by
  induction l with
  | nil =>
      intro c a m _ hmem
      cases hmem
  | cons p rest ih =>
      intro c a m hnd hmem
      obtain ⟨x, r⟩ := p
      simp only [List.map_cons, List.nodup_cons] at hnd
      rcases List.mem_cons.mp hmem with heq | hrest
      · injection heq with h1 h2
        subst h1
        subst h2
        rw [show spyRunLoop c ((a, FetchResult.fatal m) :: rest) =
            spyRunLoop (spyStep c a (.fatal m)) rest from rfl,
          spyRunLoop_failed_lookup_of_not_mem rest _ hnd.1,
          show (spyStep c a (.fatal m)).failed_ids =
            dictInsert c.failed_ids a m from rfl,
          dictLookup_dictInsert_self]
      · exact ih (spyStep c x r) a m hnd.2 hrest

theorem spyRunLoop_payload_mem (l : List (Nat × FetchResult)) :
    ∀ (c : SteamSpyCheckpoint) (b : Nat) (d : String),
    (b, FetchResult.payload d) ∈ l → b ∈ (spyRunLoop c l).completed_ids := by
  induction l with
  | nil =>
      intro c b d hmem
      cases hmem
  | cons p rest ih =>
      intro c b d hmem
      obtain ⟨x, r⟩ := p
      rcases List.mem_cons.mp hmem with heq | hrest
      · injection heq with h1 h2
        subst h1
        subst h2
        exact spyRunLoop_completed_mono rest _ (Finset.mem_insert_self b _)
      · exact ih (spyStep c x r) b d hrest

/-! ## Claim C8 -/

/-- C8: the claim as stated is false for steam_api_scraper_v2.py's
`SteamScraper.run` (cited by the claim).  When `get_app_details` raises a
non-retryable transport error on the first of two pending ids, the run aborts
with the exception propagating: the id is recorded in no partition — let
alone with a reason string (the v2 state has only the bare set
`error_apps`) — and the second pending id is never processed. -/
theorem c8_failed_recording_counterexample :
    (SteamScraper.run_v2 100 (fun _ => 0) {} 3 {1, 2} (probeEnum [1, 2])
        [.raised "conn", .success "d"] none none).aborted = some "conn" ∧
    (SteamScraper.run_v2 100 (fun _ => 0) {} 3 {1, 2} (probeEnum [1, 2])
        [.raised "conn", .success "d"] none none).final.error_apps = ∅ ∧
    (SteamScraper.run_v2 100 (fun _ => 0) {} 3 {1, 2} (probeEnum [1, 2])
        [.raised "conn", .success "d"] none none).final.excluded_apps = ∅ ∧
    (SteamScraper.run_v2 100 (fun _ => 0) {} 3 {1, 2} (probeEnum [1, 2])
        [.raised "conn", .success "d"] none none).final.apps_data = [] := by
  refine ⟨by decide, by decide, by decide, by decide⟩

/-- C8 (amended): in the SteamSpy (and store) scrapers, a fetch call that
ends in a fatal transport error is caught per-id: the id is recorded in
`failed_ids` with the exception's message and the loop goes on to process
every remaining pending id (any id whose fetch succeeds anywhere in the
trace ends up completed).  In steam_api_scraper_v2.py the engine records an
unclassifiable response (`details is None`) only as a bare id in the
`error_apps` set, with no reason string, and a raised transport exception is
not caught by the loop at all: the run aborts with the state unchanged by
that id and the remaining ids unprocessed. -/
theorem c8_failed_recording :
    (∀ (c : SteamSpyCheckpoint) (l : List (Nat × FetchResult)) (a : Nat)
        (m : String),
        (l.map Prod.fst).Nodup → (a, FetchResult.fatal m) ∈ l →
        dictLookup (spyRunLoop c l).failed_ids a = some m) ∧
    (∀ (c : SteamSpyCheckpoint) (l : List (Nat × FetchResult)) (b : Nat)
        (d : String),
        (b, FetchResult.payload d) ∈ l → b ∈ (spyRunLoop c l).completed_ids) ∧
    (∀ (interval : Nat) (clock : Nat → Nat) (i : Nat) (c : SteamAPICheckpoint)
        (saves : List SteamAPICheckpoint) (a : Nat) (m : String)
        (rest : List (Nat × V2Outcome)),
        v2LoopAux interval clock none i c saves ((a, .raised m) :: rest) =
          (c, saves, some m)) ∧
    (∀ (c : SteamAPICheckpoint) (a : Nat),
        v2Step c a .noDetails = { c with error_apps := insert a c.error_apps }) := by
  refine ⟨?_, ?_, ?_, fun c a => rfl⟩
  · intro c l a m hnd hmem
    exact spyRunLoop_fatal_lookup l c a m hnd hmem
  · intro c l b d hmem
    exact spyRunLoop_payload_mem l c b d hmem
  · intro interval clock i c saves a m rest
    simp [v2LoopAux]

/-- Witness for C8 (amended): after a mixed trace the failed id's reason is
retained and the succeeding id is completed. -/
theorem c8_failed_recording_witness :
    dictLookup (spyRunLoop {} [(1, .payload "d"), (2, .fatal "boom")]).failed_ids
        2 = some "boom" ∧
    1 ∈ (spyRunLoop ({} : SteamSpyCheckpoint)
        [(1, .payload "d"), (2, .fatal "boom")]).completed_ids :=
  ⟨c8_failed_recording.1 {} [(1, .payload "d"), (2, .fatal "boom")] 2 "boom"
      (by decide) (by decide),
   c8_failed_recording.2.1 {} [(1, .payload "d"), (2, .fatal "boom")] 1 "d"
      (by decide)⟩

/-! ## Supporting lemmas: reducing `prepLoop` to per-stream folds -/

theorem foldCatStream_append (st : PrepState) (s t : List (Nat × RawRef)) :
    foldCatStream st (s ++ t) = foldCatStream (foldCatStream st s) t := by
  unfold foldCatStream
  exact List.foldl_append _ _ s t

theorem foldGenreStream_append (st : PrepState) (s t : List (Nat × RawRef)) :
    foldGenreStream st (s ++ t) = foldGenreStream (foldGenreStream st s) t := by
  unfold foldGenreStream
  exact List.foldl_append _ _ s t

theorem catFold_eq_stream (a : Nat) (refs : List RawRef) :
    ∀ st : PrepState, refs.foldl (addCategory a) st =
      foldCatStream st (refs.map (fun c => (a, c))) := by
  induction refs with
  | nil => intro st; rfl
  | cons c refs ih => intro st; exact ih (addCategory a st c)

theorem genreFold_eq_stream (a : Nat) (refs : List RawRef) :
    ∀ st : PrepState, refs.foldl (addGenre a) st =
      foldGenreStream st (refs.map (fun g => (a, g))) := by
  induction refs with
  | nil => intro st; rfl
  | cons g refs ih => intro st; exact ih (addGenre a st g)

theorem genreFold_frame (a : Nat) (gs : List RawRef) : ∀ st : PrepState,
    ((gs.foldl (addGenre a) st).category_name_to_id = st.category_name_to_id) ∧
    ((gs.foldl (addGenre a) st).categories = st.categories) ∧
    ((gs.foldl (addGenre a) st).game_categories = st.game_categories) ∧
    ((gs.foldl (addGenre a) st).games = st.games) := by
  induction gs with
  | nil => intro st; exact ⟨rfl, rfl, rfl, rfl⟩
  | cons g gs ih => intro st; exact ih (addGenre a st g)

theorem catFold_frame (a : Nat) (cs : List RawRef) : ∀ st : PrepState,
    ((cs.foldl (addCategory a) st).genres = st.genres) ∧
    ((cs.foldl (addCategory a) st).games = st.games) := by
  induction cs with
  | nil => intro st; exact ⟨rfl, rfl⟩
  | cons c cs ih =>
      intro st
      have h := ih (addCategory a st c)
      have hg : (addCategory a st c).genres = st.genres := by
        unfold addCategory
        split <;> rfl
      have hgm : (addCategory a st c).games = st.games := by
        unfold addCategory
        split <;> rfl
      exact ⟨h.1.trans hg, h.2.trans hgm⟩

theorem devFold_frame (a : Nat) (ds : List String) : ∀ st : PrepState,
    ((ds.foldl (addDeveloper a) st).category_name_to_id =
      st.category_name_to_id) ∧
    ((ds.foldl (addDeveloper a) st).categories = st.categories) ∧
    ((ds.foldl (addDeveloper a) st).game_categories = st.game_categories) ∧
    ((ds.foldl (addDeveloper a) st).games = st.games) ∧
    ((ds.foldl (addDeveloper a) st).genres = st.genres) := by
  induction ds with
  | nil => intro st; exact ⟨rfl, rfl, rfl, rfl, rfl⟩
  | cons d ds ih => intro st; exact ih (addDeveloper a st d)

theorem pubFold_frame (a : Nat) (ps : List String) : ∀ st : PrepState,
    ((ps.foldl (addPublisher a) st).category_name_to_id =
      st.category_name_to_id) ∧
    ((ps.foldl (addPublisher a) st).categories = st.categories) ∧
    ((ps.foldl (addPublisher a) st).game_categories = st.game_categories) ∧
    ((ps.foldl (addPublisher a) st).games = st.games) ∧
    ((ps.foldl (addPublisher a) st).genres = st.genres) := by
  induction ps with
  | nil => intro st; exact ⟨rfl, rfl, rfl, rfl, rfl⟩
  | cons p ps ih => intro st; exact ih (addPublisher a st p)

theorem foldCatStream_congr (s : List (Nat × RawRef)) : ∀ X Y : PrepState,
    X.category_name_to_id = Y.category_name_to_id → X.categories = Y.categories →
    X.game_categories = Y.game_categories →
    ((foldCatStream X s).category_name_to_id =
      (foldCatStream Y s).category_name_to_id) ∧
    ((foldCatStream X s).categories = (foldCatStream Y s).categories) ∧
    ((foldCatStream X s).game_categories =
      (foldCatStream Y s).game_categories) := by
  induction s with
  | nil => intro X Y h1 h2 h3; exact ⟨h1, h2, h3⟩
  | cons e s ih =>
      intro X Y h1 h2 h3
      refine ih (addCategory e.1 X e.2) (addCategory e.1 Y e.2) ?_ ?_ ?_ <;>
        · unfold addCategory
          rw [h1]
          cases dictLookup Y.category_name_to_id e.2.description <;>
            simp [h1, h2, h3]

theorem foldGenreStream_congr (s : List (Nat × RawRef)) : ∀ X Y : PrepState,
    X.genres = Y.genres →
    (foldGenreStream X s).genres = (foldGenreStream Y s).genres := by
  induction s with
  | nil => intro X Y h; exact h
  | cons e s ih =>
      intro X Y h
      refine ih (addGenre e.1 X e.2) (addGenre e.1 Y e.2) ?_
      unfold addGenre
      simp [h]

theorem processApp_cat_fields (st : PrepState) (e : Nat × Option RawApp) :
    ((processApp st e).category_name_to_id =
      (foldCatStream st (catStreamOf e)).category_name_to_id) ∧
    ((processApp st e).categories =
      (foldCatStream st (catStreamOf e)).categories) ∧
    ((processApp st e).game_categories =
      (foldCatStream st (catStreamOf e)).game_categories) := by
  obtain ⟨a, rawOpt⟩ := e
  cases rawOpt with
  | none => exact ⟨rfl, rfl, rfl⟩
  | some raw =>
      by_cases htype : raw.type ≠ "game"
      · have hp : processApp st (a, some raw) = st := by
          simp [processApp, htype]
        have hc : catStreamOf (a, some raw) = [] := by
          simp [catStreamOf, htype]
        rw [hp, hc]
        exact ⟨rfl, rfl, rfl⟩
      · have hp : processApp st (a, some raw) =
            raw.publishers.foldl (addPublisher a)
              (raw.developers.foldl (addDeveloper a)
                (raw.categories.foldl (addCategory a)
                  (raw.genres.foldl (addGenre a)
                    { st with games := st.games ++ [(a, raw.name)] }))) := by
          simp [processApp, htype]
        have hc : catStreamOf (a, some raw) =
            raw.categories.map (fun c => (a, c)) := by
          simp [catStreamOf, htype]
        rw [hp, hc]
        have hpub := pubFold_frame a raw.publishers
          (raw.developers.foldl (addDeveloper a)
            (raw.categories.foldl (addCategory a)
              (raw.genres.foldl (addGenre a)
                { st with games := st.games ++ [(a, raw.name)] })))
        have hdev := devFold_frame a raw.developers
          (raw.categories.foldl (addCategory a)
            (raw.genres.foldl (addGenre a)
              { st with games := st.games ++ [(a, raw.name)] }))
        have hgen := genreFold_frame a raw.genres
          { st with games := st.games ++ [(a, raw.name)] }
        have hcongr := foldCatStream_congr (raw.categories.map (fun c => (a, c)))
          (raw.genres.foldl (addGenre a)
            { st with games := st.games ++ [(a, raw.name)] })
          st hgen.1 hgen.2.1 hgen.2.2.1
        refine ⟨?_, ?_, ?_⟩
        · rw [hpub.1, hdev.1, catFold_eq_stream, hcongr.1]
        · rw [hpub.2.1, hdev.2.1, catFold_eq_stream, hcongr.2.1]
        · rw [hpub.2.2.1, hdev.2.2.1, catFold_eq_stream, hcongr.2.2]

theorem prepFold_cat_fields (data : List (Nat × Option RawApp)) :
    ∀ st : PrepState,
    ((data.foldl processApp st).category_name_to_id =
      (foldCatStream st (catStream data)).category_name_to_id) ∧
    ((data.foldl processApp st).categories =
      (foldCatStream st (catStream data)).categories) ∧
    ((data.foldl processApp st).game_categories =
      (foldCatStream st (catStream data)).game_categories) := by
  induction data with
  | nil => intro st; exact ⟨rfl, rfl, rfl⟩
  | cons e data ih =>
      intro st
      have hone := processApp_cat_fields st e
      have hcongr := foldCatStream_congr (catStream data)
        (processApp st e) (foldCatStream st (catStreamOf e))
        hone.1 hone.2.1 hone.2.2
      have hstep := ih (processApp st e)
      have hstream : catStream (e :: data) = catStreamOf e ++ catStream data := by
        simp [catStream]
      refine ⟨?_, ?_, ?_⟩
      · rw [List.foldl_cons, hstep.1, hcongr.1, hstream,
          foldCatStream_append]
      · rw [List.foldl_cons, hstep.2.1, hcongr.2.1, hstream,
          foldCatStream_append]
      · rw [List.foldl_cons, hstep.2.2, hcongr.2.2, hstream,
          foldCatStream_append]

/-! ## Supporting lemmas: first-observed-id canonicalization -/

theorem dictLookup_append {α β : Type} [DecidableEq α] (d₁ d₂ : List (α × β))
    (a : α) :
    dictLookup (d₁ ++ d₂) a = (dictLookup d₁ a).or (dictLookup d₂ a) := by
  induction d₁ with
  | nil => simp [dictLookup]
  | cons p rest ih =>
      obtain ⟨k, v⟩ := p
      by_cases h : k = a
      · simp [dictLookup, h]
      · simp [dictLookup, h, ih]

theorem firstIdFor_append (t u : List (Nat × RawRef)) (name : String) :
    firstIdFor (t ++ u) name = (firstIdFor t name).or (firstIdFor u name) := by
  unfold firstIdFor
  rw [List.map_append, List.find?_append]
  cases (t.map Prod.snd).find? (fun r => decide (r.description = name)) <;> simp

theorem firstIdFor_some_append {t : List (Nat × RawRef)} {name : String}
    {i : Nat} (h : firstIdFor t name = some i) (u : List (Nat × RawRef)) :
    firstIdFor (t ++ u) name = some i := by
  rw [firstIdFor_append, h]
  rfl

theorem firstIdFor_none_append {t : List (Nat × RawRef)} {name : String}
    (h : firstIdFor t name = none) (u : List (Nat × RawRef)) :
    firstIdFor (t ++ u) name = firstIdFor u name := by
  rw [firstIdFor_append, h]
  simp

theorem firstIdFor_singleton (e : Nat × RawRef) (name : String) :
    firstIdFor [e] name =
      if e.2.description = name then some e.2.id else none := by
  by_cases h : e.2.description = name <;> simp [firstIdFor, List.find?, h]

theorem foldCatStream_spec (s : List (Nat × RawRef)) :
    ∀ (h : List (Nat × RawRef)) (st : PrepState),
    (∀ name, dictLookup st.category_name_to_id name = firstIdFor h name) →
    ((foldCatStream st s).game_categories =
        st.game_categories ++ canonFrom (h ++ s) s) ∧
    (∀ name, dictLookup (foldCatStream st s).category_name_to_id name =
        firstIdFor (h ++ s) name) := by
  induction s with
  | nil =>
      intro h st hst
      constructor
      · simp [foldCatStream, canonFrom]
      · intro name
        simpa using hst name
  | cons e s ih =>
      intro h st hst
      have hstep : foldCatStream st (e :: s) =
          foldCatStream (addCategory e.1 st e.2) s := rfl
      have hassoc : (h ++ [e]) ++ s = h ++ e :: s := by simp
      cases hlk : dictLookup st.category_name_to_id e.2.description with
      | some cid0 =>
          have hfid : firstIdFor h e.2.description = some cid0 :=
            (hst _).symm.trans hlk
          have haddc : addCategory e.1 st e.2 =
              { st with game_categories :=
                  st.game_categories ++ [(e.1, cid0)] } := by
            unfold addCategory
            rw [hlk]
          have hst' : ∀ name,
              dictLookup ({ st with game_categories :=
                  st.game_categories ++ [(e.1, cid0)] } :
                PrepState).category_name_to_id name =
                firstIdFor (h ++ [e]) name := by
            intro name
            rw [firstIdFor_append, firstIdFor_singleton]
            show dictLookup st.category_name_to_id name = _
            rw [hst name]
            by_cases hdn : e.2.description = name
            · rw [← hdn, hfid]
              simp
            · simp [hdn]
          obtain ⟨ih1, ih2⟩ := ih (h ++ [e]) _ hst'
          have hhead : (firstIdFor (h ++ e :: s) e.2.description).getD e.2.id =
              cid0 := by
            rw [firstIdFor_some_append hfid (e :: s)]
            rfl
          constructor
          · rw [hstep, haddc, ih1, hassoc]
            show st.game_categories ++ [(e.1, cid0)] ++ _ = _
            simp [canonFrom, hhead, List.append_assoc]
          · intro name
            rw [hstep, haddc, ih2 name, hassoc]
      | none =>
          have hfid : firstIdFor h e.2.description = none :=
            (hst _).symm.trans hlk
          have haddc : addCategory e.1 st e.2 =
              { st with
                category_name_to_id :=
                  st.category_name_to_id ++ [(e.2.description, e.2.id)],
                categories := dictInsert st.categories e.2.id e.2.description,
                game_categories := st.game_categories ++ [(e.1, e.2.id)] } := by
            unfold addCategory
            rw [hlk]
          have hst' : ∀ name,
              dictLookup ({ st with
                  category_name_to_id :=
                    st.category_name_to_id ++ [(e.2.description, e.2.id)],
                  categories := dictInsert st.categories e.2.id e.2.description,
                  game_categories := st.game_categories ++ [(e.1, e.2.id)] } :
                PrepState).category_name_to_id name =
                firstIdFor (h ++ [e]) name := by
            intro name
            show dictLookup (st.category_name_to_id ++
              [(e.2.description, e.2.id)]) name = _
            rw [dictLookup_append, firstIdFor_append, hst name,
              firstIdFor_singleton]
            congr 1
          obtain ⟨ih1, ih2⟩ := ih (h ++ [e]) _ hst'
          have hfe2 : firstIdFor (h ++ [e]) e.2.description = some e.2.id := by
            rw [firstIdFor_none_append hfid [e], firstIdFor_singleton]
            simp
          have hhead : (firstIdFor (h ++ e :: s) e.2.description).getD e.2.id =
              e.2.id := by
            rw [← hassoc, firstIdFor_some_append hfe2 s]
            rfl
          constructor
          · rw [hstep, haddc, ih1, hassoc]
            show st.game_categories ++ [(e.1, e.2.id)] ++ _ = _
            simp [canonFrom, hhead, List.append_assoc]
          · intro name
            rw [hstep, haddc, ih2 name, hassoc]

/-! ## Supporting lemmas: dict keys, dict values, and name uniqueness -/

theorem dictLookup_eq_none {α β : Type} [DecidableEq α] (d : List (α × β))
    (a : α) : dictLookup d a = none ↔ a ∉ dictKeys d := by
  induction d with
  | nil => simp [dictLookup, dictKeys]
  | cons p rest ih =>
      obtain ⟨k, v⟩ := p
      by_cases h : k = a
      · subst h
        simp [dictLookup, dictKeys]
      · have h' : ¬ a = k := fun he => h he.symm
        simp [dictLookup, dictKeys, h, h', ih]

theorem dictInsert_cons_eq {α β : Type} [DecidableEq α] (k : α) (v v' : β)
    (rest : List (α × β)) :
    dictInsert ((k, v') :: rest) k v = (k, v) :: rest := by
  simp [dictInsert]

theorem dictInsert_cons_ne {α β : Type} [DecidableEq α] {k' k : α}
    (h : k' ≠ k) (v' v : β) (rest : List (α × β)) :
    dictInsert ((k', v') :: rest) k v = (k', v') :: dictInsert rest k v := by
  simp [dictInsert, h]

theorem dictKeys_dictInsert {α β : Type} [DecidableEq α] (d : List (α × β))
    (k : α) (v : β) :
    dictKeys (dictInsert d k v) =
      if k ∈ dictKeys d then dictKeys d else dictKeys d ++ [k] := by
  induction d with
  | nil => simp [dictInsert, dictKeys]
  | cons p rest ih =>
      obtain ⟨k', v'⟩ := p
      by_cases h : k' = k
      · subst h
        rw [dictInsert_cons_eq]
        simp [dictKeys]
      · have h' : ¬ k = k' := fun he => h he.symm
        rw [dictInsert_cons_ne h,
          show dictKeys ((k', v') :: dictInsert rest k v) =
            k' :: dictKeys (dictInsert rest k v) from rfl, ih]
        by_cases hk : k ∈ dictKeys rest
        · rw [if_pos hk,
            if_pos (show k ∈ dictKeys ((k', v') :: rest) from
              List.mem_cons_of_mem _ hk)]
          rfl
        · rw [if_neg hk,
            if_neg (show k ∉ dictKeys ((k', v') :: rest) from by
              intro hm
              rcases List.mem_cons.mp hm with hm | hm
              · exact h' hm
              · exact hk hm)]
          simp [dictKeys]

theorem keys_nodup_dictInsert {α β : Type} [DecidableEq α]
    {d : List (α × β)} (k : α) (v : β) (h : (dictKeys d).Nodup) :
    (dictKeys (dictInsert d k v)).Nodup := by
  rw [dictKeys_dictInsert]
  by_cases hk : k ∈ dictKeys d
  · simpa [hk] using h
  · rw [if_neg hk]
    simpa [List.nodup_append] using ⟨h, hk⟩

theorem mem_values_dictInsert {α β : Type} [DecidableEq α]
    (d : List (α × β)) (k : α) (v : β) :
    ∀ x ∈ (dictInsert d k v).map Prod.snd, x = v ∨ x ∈ d.map Prod.snd := by
  induction d with
  | nil =>
      intro x hx
      rw [show dictInsert ([] : List (α × β)) k v = [(k, v)] from rfl] at hx
      exact Or.inl (by simpa using hx)
  | cons p rest ih =>
      obtain ⟨k', v'⟩ := p
      intro x hx
      by_cases hk : k' = k
      · subst hk
        rw [dictInsert_cons_eq, List.map_cons] at hx
        rcases List.mem_cons.mp hx with hx | hx
        · exact Or.inl hx
        · exact Or.inr (by rw [List.map_cons]; exact List.mem_cons_of_mem _ hx)
      · rw [dictInsert_cons_ne hk, List.map_cons] at hx
        rcases List.mem_cons.mp hx with hx | hx
        · exact Or.inr (by rw [List.map_cons, hx]; exact List.mem_cons_self _ _)
        · rcases ih x hx with h' | h'
          · exact Or.inl h'
          · exact Or.inr
              (by rw [List.map_cons]; exact List.mem_cons_of_mem _ h')

theorem values_nodup_dictInsert {α β : Type} [DecidableEq α]
    {d : List (α × β)} (k : α) {v : β}
    (hv : (d.map Prod.snd).Nodup) (hfresh : v ∉ d.map Prod.snd) :
    ((dictInsert d k v).map Prod.snd).Nodup := by
  induction d with
  | nil => simp [dictInsert]
  | cons p rest ih =>
      obtain ⟨k', v'⟩ := p
      rw [List.map_cons, List.nodup_cons] at hv
      rw [List.map_cons, List.mem_cons] at hfresh
      push_neg at hfresh
      by_cases hk : k' = k
      · subst hk
        rw [dictInsert_cons_eq, List.map_cons, List.nodup_cons]
        exact ⟨hfresh.2, hv.2⟩
      · rw [dictInsert_cons_ne hk, List.map_cons, List.nodup_cons]
        refine ⟨?_, ih hv.2 hfresh.2⟩
        intro hmem
        rcases mem_values_dictInsert rest k v v' hmem with h | h
        · exact hfresh.1 h.symm
        · exact hv.1 h

theorem dictLookup_of_keys_nodup {α β : Type} [DecidableEq α]
    {d : List (α × β)} {k : α} {v : β}
    (hk : (dictKeys d).Nodup) (hmem : (k, v) ∈ d) :
    dictLookup d k = some v := by
  induction d with
  | nil => cases hmem
  | cons p rest ih =>
      obtain ⟨k', v'⟩ := p
      rw [show dictKeys ((k', v') :: rest) = k' :: dictKeys rest from rfl,
        List.nodup_cons] at hk
      rcases List.mem_cons.mp hmem with heq | hrest
      · injection heq with h1 h2
        subst h1
        subst h2
        simp [dictLookup]
      · have hne : k' ≠ k := by
          intro he
          subst he
          exact hk.1 (List.mem_map_of_mem Prod.fst hrest)
        simp [dictLookup, hne, ih hk.2 hrest]

theorem dictInsert_eq_of_lookup {α β : Type} [DecidableEq α]
    {d : List (α × β)} {k : α} {v : β} (h : dictLookup d k = some v) :
    dictInsert d k v = d := by
  induction d with
  | nil => simp [dictLookup] at h
  | cons p rest ih =>
      obtain ⟨k', v'⟩ := p
      by_cases hk : k' = k
      · subst hk
        rw [show dictLookup ((k', v') :: rest) k' = some v' from by
          simp [dictLookup], Option.some.injEq] at h
        rw [dictInsert_cons_eq, h]
      · rw [show dictLookup ((k', v') :: rest) k = dictLookup rest k from by
          simp [dictLookup, hk]] at h
        rw [dictInsert_cons_ne hk, ih h]

/-! ## Supporting lemmas: the tags table keeps names unique -/

theorem addTag_inv (appid : Nat) (scr : Option String) (t : TagEntry)
    (st : TagState) (h : TagInv st) : TagInv (addTag appid scr st t) := by
  obtain ⟨hk, hv⟩ := h
  by_cases hmem :
      t.name ∈ (st.tags.filter (fun p => decide (p.1 ≠ t.tagid))).map Prod.snd
  · -- the name exists under a different id: the code falls back to the first
    -- id carrying the name, and the dict update is a no-op.
    have htid : (addTag appid scr st t).tags =
        dictInsert st.tags
          (((st.tags.filter (fun p => decide (p.2 = t.name))).map
            Prod.fst).headD t.tagid) t.name := by
      simp only [addTag]
      rw [if_pos hmem]
    obtain ⟨p, hp, hpv⟩ := List.mem_map.mp hmem
    have hpd : p ∈ st.tags := List.mem_of_mem_filter hp
    have hpf : p ∈ st.tags.filter (fun q => decide (q.2 = t.name)) :=
      List.mem_filter.mpr ⟨hpd, by simp [hpv]⟩
    rcases hfl : st.tags.filter (fun q => decide (q.2 = t.name)) with _ | ⟨q, l'⟩
    · rw [hfl] at hpf
      cases hpf
    · have hq : q ∈ st.tags.filter (fun q => decide (q.2 = t.name)) := by
        rw [hfl]
        exact List.mem_cons_self q l'
      have hqd : q ∈ st.tags := List.mem_of_mem_filter hq
      have hqv : q.2 = t.name := by
        have := (List.mem_filter.mp hq).2
        simpa using this
      have hhead :
          ((st.tags.filter (fun q => decide (q.2 = t.name))).map
            Prod.fst).headD t.tagid = q.1 := by
        rw [hfl]
        rfl
      have hlook : dictLookup st.tags q.1 = some t.name := by
        rw [← hqv]
        exact dictLookup_of_keys_nodup hk (by simpa using hqd)
      have : (addTag appid scr st t).tags = st.tags := by
        rw [htid, hhead, dictInsert_eq_of_lookup hlook]
      exact ⟨by rw [this]; exact hk, by rw [this]; exact hv⟩
  · have htid : (addTag appid scr st t).tags =
        dictInsert st.tags t.tagid t.name := by
      simp only [addTag]
      rw [if_neg hmem]
    by_cases hval : t.name ∈ st.tags.map Prod.snd
    · -- the name exists, necessarily under t.tagid itself: no-op update.
      obtain ⟨p, hp, hpv⟩ := List.mem_map.mp hval
      have hkey : p.1 = t.tagid := by
        by_contra hne
        exact hmem (List.mem_map.mpr
          ⟨p, List.mem_filter.mpr ⟨hp, by simp [hne]⟩, hpv⟩)
      have hlook : dictLookup st.tags t.tagid = some t.name := by
        rw [← hpv, ← hkey]
        exact dictLookup_of_keys_nodup hk (by simpa using hp)
      have : (addTag appid scr st t).tags = st.tags := by
        rw [htid, dictInsert_eq_of_lookup hlook]
      exact ⟨by rw [this]; exact hk, by rw [this]; exact hv⟩
    · exact ⟨by rw [htid]; exact keys_nodup_dictInsert _ _ hk,
        by rw [htid]; exact values_nodup_dictInsert _ hv hval⟩

theorem tagFold_inv (appid : Nat) (scr : Option String) (ts : List TagEntry) :
    ∀ st : TagState, TagInv st → TagInv (ts.foldl (addTag appid scr) st) := by
  induction ts with
  | nil => intro st h; exact h
  | cons t ts ih => intro st h; exact ih _ (addTag_inv appid scr t st h)

theorem tagRecordFold_inv (records : List TagRecord) :
    ∀ st : TagState, TagInv st →
    TagInv (records.foldl tagRecordStep st) := by
  induction records with
  | nil => intro st h; exact h
  | cons r records ih =>
      intro st h
      refine ih _ ?_
      unfold tagRecordStep
      split
      · exact h
      · exact tagFold_inv r.appid r.scraped_at r.tags st h

theorem mem_dictKeys_dictInsert_self {α β : Type} [DecidableEq α]
    (d : List (α × β)) (k : α) (v : β) : k ∈ dictKeys (dictInsert d k v) := by
  rw [dictKeys_dictInsert]
  by_cases h : k ∈ dictKeys d
  · rw [if_pos h]
    exact h
  · rw [if_neg h]
    exact List.mem_append_right _ (List.mem_singleton_self k)

theorem dictKeys_dictInsert_mono {α β : Type} [DecidableEq α]
    {d : List (α × β)} {x : α} (k : α) (v : β) (h : x ∈ dictKeys d) :
    x ∈ dictKeys (dictInsert d k v) := by
  rw [dictKeys_dictInsert]
  by_cases hk : k ∈ dictKeys d
  · rw [if_pos hk]
    exact h
  · rw [if_neg hk]
    exact List.mem_append_left _ h

theorem addTag_gtInv (appid : Nat) (scr : Option String) (t : TagEntry)
    (st : TagState) (h : GTInv st) : GTInv (addTag appid scr st t) := by
  have hshape : ∃ tid : Nat,
      (addTag appid scr st t).tags = dictInsert st.tags tid t.name ∧
      (addTag appid scr st t).game_tags =
        st.game_tags ++ [(appid, tid, t.count, scr)] :=
    ⟨_, rfl, rfl⟩
  obtain ⟨tid, htags, hgts⟩ := hshape
  intro gt hgt
  rw [hgts] at hgt
  rw [htags]
  rcases List.mem_append.mp hgt with hold | hnew
  · exact dictKeys_dictInsert_mono _ _ (h gt hold)
  · rw [List.mem_singleton] at hnew
    subst hnew
    exact mem_dictKeys_dictInsert_self st.tags tid t.name

theorem tagFold_gtInv (appid : Nat) (scr : Option String)
    (ts : List TagEntry) :
    ∀ st : TagState, GTInv st → GTInv (ts.foldl (addTag appid scr) st) := by
  induction ts with
  | nil => intro st h; exact h
  | cons t ts ih => intro st h; exact ih _ (addTag_gtInv appid scr t st h)

theorem tagRecordFold_gtInv (records : List TagRecord) :
    ∀ st : TagState, GTInv st →
    GTInv (records.foldl tagRecordStep st) := by
  induction records with
  | nil => intro st h; exact h
  | cons r records ih =>
      intro st h
      refine ih _ ?_
      unfold tagRecordStep
      split
      · exact h
      · exact tagFold_gtInv r.appid r.scraped_at r.tags st h

theorem dedupFold_subset (l : List (Nat × Nat × Nat × Option String)) :
    ∀ (seen : Finset (Nat × Nat)) (acc : List (Nat × Nat × Nat × Option String)),
    ∀ gt ∈ (l.foldl dedupStep (seen, acc)).2, gt ∈ acc ∨ gt ∈ l := by
  induction l with
  | nil =>
      intro seen acc gt hgt
      exact Or.inl hgt
  | cons x l ih =>
      intro seen acc gt hgt
      rw [List.foldl_cons] at hgt
      by_cases hmem : (x.1, x.2.1) ∈ seen
      · rw [show dedupStep (seen, acc) x = (seen, acc) from by
          simp [dedupStep, hmem]] at hgt
        rcases ih seen acc gt hgt with h | h
        · exact Or.inl h
        · exact Or.inr (List.mem_cons_of_mem x h)
      · rw [show dedupStep (seen, acc) x =
            (insert (x.1, x.2.1) seen, acc ++ [x]) from by
          simp [dedupStep, hmem]] at hgt
        rcases ih _ _ gt hgt with h | h
        · rcases List.mem_append.mp h with h' | h'
          · exact Or.inl h'
          · rw [List.mem_singleton] at h'
            exact Or.inr (h' ▸ List.mem_cons_self x l)
        · exact Or.inr (List.mem_cons_of_mem x h)

/-! ## Supporting lemmas: the categories table keeps names unique -/

theorem addCategory_catTableInv (a : Nat) (c : RawRef) (st : PrepState)
    (h : CatTableInv st) : CatTableInv (addCategory a st c) := by
  obtain ⟨hsub, hnd⟩ := h
  cases hlk : dictLookup st.category_name_to_id c.description with
  | some cid0 =>
      have heq : addCategory a st c =
          { st with game_categories := st.game_categories ++ [(a, cid0)] } := by
        unfold addCategory
        rw [hlk]
      rw [heq]
      exact ⟨hsub, hnd⟩
  | none =>
      have heq : addCategory a st c =
          { st with
            category_name_to_id :=
              st.category_name_to_id ++ [(c.description, c.id)],
            categories := dictInsert st.categories c.id c.description,
            game_categories := st.game_categories ++ [(a, c.id)] } := by
        unfold addCategory
        rw [hlk]
      rw [heq]
      have hdesc : c.description ∉ dictKeys st.category_name_to_id :=
        (dictLookup_eq_none _ _).mp hlk
      have hfresh : c.description ∉ st.categories.map Prod.snd :=
        fun hx => hdesc (hsub _ hx)
      have hkeys : dictKeys (st.category_name_to_id ++
          [(c.description, c.id)]) =
          dictKeys st.category_name_to_id ++ [c.description] := by
        simp [dictKeys]
      constructor
      · intro x hx
        show x ∈ dictKeys (st.category_name_to_id ++ [(c.description, c.id)])
        rw [hkeys]
        rcases mem_values_dictInsert st.categories c.id c.description x hx with
          h' | h'
        · rw [h']
          exact List.mem_append_right _ (by simp)
        · exact List.mem_append_left _ (hsub x h')
      · exact values_nodup_dictInsert _ hnd hfresh

theorem foldCatStream_catTableInv (s : List (Nat × RawRef)) :
    ∀ st : PrepState, CatTableInv st → CatTableInv (foldCatStream st s) := by
  induction s with
  | nil => intro st h; exact h
  | cons e s ih =>
      intro st h
      exact ih _ (addCategory_catTableInv e.1 e.2 st h)

/-! ## Supporting lemmas: genre rows and games rows in encounter order -/

theorem foldGenre_keys (s : List (Nat × RawRef)) : ∀ st : PrepState,
    dictKeys (foldGenreStream st s).genres =
      (s.map (fun e => e.2.id)).foldl updKeys (dictKeys st.genres) := by
  induction s with
  | nil => intro st; rfl
  | cons e s ih =>
      intro st
      have hstep : foldGenreStream st (e :: s) =
          foldGenreStream (addGenre e.1 st e.2) s := rfl
      rw [hstep, ih]
      have : dictKeys (addGenre e.1 st e.2).genres =
          updKeys (dictKeys st.genres) e.2.id := by
        show dictKeys (dictInsert st.genres e.2.id e.2.description) = _
        rw [dictKeys_dictInsert]
        rfl
      rw [this]
      rfl

theorem foldl_updKeys_spec (stream : List Nat) : ∀ ks : List Nat,
    stream.foldl updKeys ks =
      ks ++ firstOccurrenceKeys (stream.filter (fun k => decide (k ∉ ks))) := by
  induction stream with
  | nil =>
      intro ks
      simp [firstOccurrenceKeys]
  | cons k t ih =>
      intro ks
      by_cases hk : k ∈ ks
      · rw [List.foldl_cons, show updKeys ks k = ks from by simp [updKeys, hk],
          ih ks]
        have hfil : (k :: t).filter (fun x => decide (x ∉ ks)) =
            t.filter (fun x => decide (x ∉ ks)) := by
          simp [hk]
        rw [hfil]
      · rw [List.foldl_cons,
          show updKeys ks k = ks ++ [k] from by simp [updKeys, hk],
          ih (ks ++ [k])]
        have hfil : t.filter (fun x => decide (x ∉ ks ++ [k])) =
            (t.filter (fun x => decide (x ∉ ks))).filter
              (fun x => decide (x ≠ k)) := by
          rw [List.filter_filter]
          apply List.filter_congr
          intro x _
          by_cases hxk : x = k
          · simp [hxk]
          · by_cases hxs : x ∈ ks <;> simp [hxk, hxs]
        have hcons : (k :: t).filter (fun x => decide (x ∉ ks)) =
            k :: t.filter (fun x => decide (x ∉ ks)) := by
          simp [hk]
        rw [hcons,
          show firstOccurrenceKeys (k :: t.filter (fun x => decide (x ∉ ks))) =
            k :: firstOccurrenceKeys
              ((t.filter (fun x => decide (x ∉ ks))).filter
                (fun x => decide (x ≠ k))) from by rw [firstOccurrenceKeys],
          ← hfil, List.append_assoc]
        rfl

theorem processApp_genres (st : PrepState) (e : Nat × Option RawApp) :
    (processApp st e).genres = (foldGenreStream st (genreStreamOf e)).genres := by
  obtain ⟨a, rawOpt⟩ := e
  cases rawOpt with
  | none => rfl
  | some raw =>
      by_cases htype : raw.type ≠ "game"
      · have hp : processApp st (a, some raw) = st := by
          simp [processApp, htype]
        have hc : genreStreamOf (a, some raw) = [] := by
          simp [genreStreamOf, htype]
        rw [hp, hc]
        rfl
      · have hp : processApp st (a, some raw) =
            raw.publishers.foldl (addPublisher a)
              (raw.developers.foldl (addDeveloper a)
                (raw.categories.foldl (addCategory a)
                  (raw.genres.foldl (addGenre a)
                    { st with games := st.games ++ [(a, raw.name)] }))) := by
          simp [processApp, htype]
        have hc : genreStreamOf (a, some raw) =
            raw.genres.map (fun g => (a, g)) := by
          simp [genreStreamOf, htype]
        rw [hp, hc]
        have hpub := pubFold_frame a raw.publishers
          (raw.developers.foldl (addDeveloper a)
            (raw.categories.foldl (addCategory a)
              (raw.genres.foldl (addGenre a)
                { st with games := st.games ++ [(a, raw.name)] })))
        have hdev := devFold_frame a raw.developers
          (raw.categories.foldl (addCategory a)
            (raw.genres.foldl (addGenre a)
              { st with games := st.games ++ [(a, raw.name)] }))
        have hcat := catFold_frame a raw.categories
          (raw.genres.foldl (addGenre a)
            { st with games := st.games ++ [(a, raw.name)] })
        rw [hpub.2.2.2.2, hdev.2.2.2.2, hcat.1, genreFold_eq_stream]
        exact foldGenreStream_congr (raw.genres.map (fun g => (a, g))) _ _ rfl

theorem prepFold_genres (data : List (Nat × Option RawApp)) :
    ∀ st : PrepState,
    (data.foldl processApp st).genres =
      (foldGenreStream st (genreStream data)).genres := by
  induction data with
  | nil => intro st; rfl
  | cons e data ih =>
      intro st
      have hstream : genreStream (e :: data) =
          genreStreamOf e ++ genreStream data := by
        simp [genreStream]
      rw [List.foldl_cons, ih (processApp st e), hstream,
        foldGenreStream_append]
      exact foldGenreStream_congr (genreStream data) _ _
        (processApp_genres st e)

theorem processApp_games (st : PrepState) (e : Nat × Option RawApp) :
    (processApp st e).games = st.games ++ specGamesRowsOf e := by
  obtain ⟨a, rawOpt⟩ := e
  cases rawOpt with
  | none => exact (List.append_nil _).symm
  | some raw =>
      by_cases htype : raw.type ≠ "game"
      · have hp : processApp st (a, some raw) = st := by
          simp [processApp, htype]
        have hc : specGamesRowsOf (a, some raw) = [] := by
          have : ¬ raw.type = "game" := htype
          simp [specGamesRowsOf, this]
        rw [hp, hc]
        exact (List.append_nil _).symm
      · have hp : processApp st (a, some raw) =
            raw.publishers.foldl (addPublisher a)
              (raw.developers.foldl (addDeveloper a)
                (raw.categories.foldl (addCategory a)
                  (raw.genres.foldl (addGenre a)
                    { st with games := st.games ++ [(a, raw.name)] }))) := by
          simp [processApp, htype]
        have hc : specGamesRowsOf (a, some raw) = [(a, raw.name)] := by
          have htype' : raw.type = "game" := by
            by_contra hne
            exact htype hne
          simp [specGamesRowsOf, htype']
        rw [hp, hc]
        have hpub := pubFold_frame a raw.publishers
          (raw.developers.foldl (addDeveloper a)
            (raw.categories.foldl (addCategory a)
              (raw.genres.foldl (addGenre a)
                { st with games := st.games ++ [(a, raw.name)] })))
        have hdev := devFold_frame a raw.developers
          (raw.categories.foldl (addCategory a)
            (raw.genres.foldl (addGenre a)
              { st with games := st.games ++ [(a, raw.name)] }))
        have hcat := catFold_frame a raw.categories
          (raw.genres.foldl (addGenre a)
            { st with games := st.games ++ [(a, raw.name)] })
        have hgen := genreFold_frame a raw.genres
          { st with games := st.games ++ [(a, raw.name)] }
        rw [hpub.2.2.2.1, hdev.2.2.2.1, hcat.2, hgen.2.2.2]

theorem prepFold_games (data : List (Nat × Option RawApp)) :
    ∀ st : PrepState,
    (data.foldl processApp st).games = st.games ++ specGamesRows data := by
  induction data with
  | nil =>
      intro st
      exact (List.append_nil _).symm
  | cons e data ih =>
      intro st
      have hstream : specGamesRows (e :: data) =
          specGamesRowsOf e ++ specGamesRows data := by
        simp [specGamesRows]
      rw [List.foldl_cons, ih (processApp st e), processApp_games, hstream,
        List.append_assoc]

/-! ## Supporting lemmas: junction dedup keeps the first occurrence -/

theorem dedupFold_spec (l : List (Nat × Nat × Nat × Option String)) :
    ∀ (seen : Finset (Nat × Nat)) (acc : List (Nat × Nat × Nat × Option String)),
    (l.foldl dedupStep (seen, acc)).2 =
      acc ++ specDedupTags
        (l.filter (fun gt => decide ((gt.1, gt.2.1) ∉ seen))) := by
  induction l with
  | nil =>
      intro seen acc
      simp [specDedupTags]
  | cons gt l ih =>
      intro seen acc
      by_cases hmem : (gt.1, gt.2.1) ∈ seen
      · rw [List.foldl_cons,
          show dedupStep (seen, acc) gt = (seen, acc) from by
            unfold dedupStep
            rw [if_pos hmem],
          ih seen acc]
        have hfil : (gt :: l).filter (fun x => decide ((x.1, x.2.1) ∉ seen)) =
            l.filter (fun x => decide ((x.1, x.2.1) ∉ seen)) := by
          simp [hmem]
        rw [hfil]
      · rw [List.foldl_cons,
          show dedupStep (seen, acc) gt =
            (insert (gt.1, gt.2.1) seen, acc ++ [gt]) from by
            unfold dedupStep
            rw [if_neg hmem],
          ih (insert (gt.1, gt.2.1) seen) (acc ++ [gt])]
        have hfil : l.filter
            (fun x => decide ((x.1, x.2.1) ∉ insert (gt.1, gt.2.1) seen)) =
            (l.filter (fun x => decide ((x.1, x.2.1) ∉ seen))).filter
              (fun x => decide ((x.1, x.2.1) ≠ (gt.1, gt.2.1))) := by
          rw [List.filter_filter]
          apply List.filter_congr
          intro x _
          by_cases hxk : (x.1, x.2.1) = (gt.1, gt.2.1)
          · simp [hxk]
          · by_cases hxs : (x.1, x.2.1) ∈ seen <;>
              simp [hxk, hxs, Finset.mem_insert]
        have hcons : (gt :: l).filter
            (fun x => decide ((x.1, x.2.1) ∉ seen)) =
            gt :: l.filter (fun x => decide ((x.1, x.2.1) ∉ seen)) := by
          simp [hmem]
        rw [hcons,
          show specDedupTags
              (gt :: l.filter (fun x => decide ((x.1, x.2.1) ∉ seen))) =
            gt :: specDedupTags
              ((l.filter (fun x => decide ((x.1, x.2.1) ∉ seen))).filter
                (fun x => decide ((x.1, x.2.1) ≠ (gt.1, gt.2.1)))) from by
            rw [specDedupTags],
          ← hfil, List.append_assoc]
        rfl

theorem dedupGameTags_eq_spec (l : List (Nat × Nat × Nat × Option String)) :
    dedupGameTags l = specDedupTags l := by
  unfold dedupGameTags
  rw [dedupFold_spec l ∅ []]
  have : l.filter (fun gt => decide ((gt.1, gt.2.1) ∉ (∅ : Finset (Nat × Nat)))) =
      l := List.filter_eq_self.mpr (fun a _ => by simp)
  rw [this]
  rfl

/-! ## Claim C3 -/

/-- C3: the claim as stated is false for the `genres` lookup table of
insert_app_details.py and for the tag junction rows of insert_tags.py.
The genres dict is keyed by the numeric id with no name-based dedup: the
names `"Action"` under ids 1 and 2 yield two rows with the same natural key,
and the junction row for the second record references id 2 — the id carried
by that record — not the first-observed id 1.  In insert_tags.py,
`tags[tagid] = name` re-binds id 10 from `"RPG"` to `"Roleplay"`, so when
`"RPG"` reappears under id 11 the redirect check (which only consults the
current bindings) finds no other id carrying the name and the emitted
junction row references 11 — not the id 10 first observed for `"RPG"`. -/
theorem c3_canonical_key_counterexample :
    (prepLoop c3CexData).genres = [(1, "Action"), (2, "Action")] ∧
    ¬ ((prepLoop c3CexData).genres.map Prod.snd).Nodup ∧
    (7, 2) ∈ (prepLoop c3CexData).game_genres ∧
    firstIdFor (genreStream c3CexData) "Action" = some 1 ∧
    firstTagIdFor c3CexRecords "RPG" = some 10 ∧
    (prepareTags c3CexRecords).1 = [(10, "Roleplay"), (11, "RPG")] ∧
    (1, 11, 3, none) ∈ (prepareTags c3CexRecords).2 := by
  refine ⟨by decide, by decide, by decide, by decide, by decide, by decide,
    by decide⟩

/-- C3 (amended): the `categories` table of insert_app_details.py and the
`tags` table of insert_tags.py contain at most one row per name, and the
category name-to-id registry always maps a name to the numeric id first
observed for it, so every emitted `game_categories` row (before and after the
set-based dedup) references the first-observed id of its record's name — not
the id carried by that record; `developers` and `publishers` are keyed by the
name itself.  The `genres` table, however, is keyed by the numeric id with no
name-based dedup: the same name under two ids yields two rows and the
junction rows keep each record's own id.  Tag junction rows are likewise not
canonicalized to the first-observed id: insert_tags.py redirects a row only
to an id currently bound to its name, so every deduped `game_tags` row
references an id present as a key of the final `tags` table, but
`tags[tagid] = name` can re-bind an id to a new name first, after which a
reappearing name keeps its record's own id rather than the first-observed
one. -/
theorem c3_canonical_first_observed :
    (∀ (data : List (Nat × Option RawApp)) (name : String),
        dictLookup (prepLoop data).category_name_to_id name =
          firstIdFor (catStream data) name) ∧
    (∀ data : List (Nat × Option RawApp),
        (prepLoop data).game_categories =
          canonFrom (catStream data) (catStream data)) ∧
    (∀ (enumS : Finset String → List String)
        (enumP : Finset (Nat × Nat) → List (Nat × Nat))
        (data : List (Nat × Option RawApp)),
        ValidEnum enumP (prepLoop data).game_categories.toFinset →
        ∀ p, p ∈ (prepare_data enumS enumP data).game_categories ↔
          p ∈ canonFrom (catStream data) (catStream data)) ∧
    (∀ data : List (Nat × Option RawApp),
        ((prepLoop data).categories.map Prod.snd).Nodup) ∧
    (∀ records : List TagRecord,
        ((prepareTags records).1.map Prod.snd).Nodup) ∧
    (∀ records : List TagRecord,
        ∀ gt ∈ (prepareTags records).2,
          gt.2.1 ∈ dictKeys (prepareTags records).1) := by
  have hinit : ∀ name, dictLookup ({} : PrepState).category_name_to_id name =
      firstIdFor [] name := fun name => rfl
  have hlookup : ∀ (data : List (Nat × Option RawApp)) (name : String),
      dictLookup (prepLoop data).category_name_to_id name =
        firstIdFor (catStream data) name := by
    intro data name
    show dictLookup (data.foldl processApp {}).category_name_to_id name = _
    rw [(prepFold_cat_fields data {}).1,
      (foldCatStream_spec (catStream data) [] {} hinit).2 name]
    simp
  have hgc : ∀ data : List (Nat × Option RawApp),
      (prepLoop data).game_categories =
        canonFrom (catStream data) (catStream data) := by
    intro data
    show (data.foldl processApp {}).game_categories = _
    rw [(prepFold_cat_fields data {}).2.2,
      (foldCatStream_spec (catStream data) [] {} hinit).1]
    simp
  refine ⟨hlookup, hgc, ?_, ?_, ?_, ?_⟩
  · intro enumS enumP data henum p
    show p ∈ enumP (prepLoop data).game_categories.toFinset ↔ _
    rw [show (p ∈ enumP (prepLoop data).game_categories.toFinset) ↔
        p ∈ (enumP (prepLoop data).game_categories.toFinset).toFinset from
        (List.mem_toFinset).symm,
      henum.1, List.mem_toFinset, hgc data]
  · intro data
    have heq : (prepLoop data).categories =
        (foldCatStream {} (catStream data)).categories :=
      (prepFold_cat_fields data {}).2.1
    rw [heq]
    exact (foldCatStream_catTableInv (catStream data) {}
      ⟨fun x hx => absurd hx (List.not_mem_nil x), List.nodup_nil⟩).2
  · intro records
    exact (tagRecordFold_inv records {} ⟨List.nodup_nil, List.nodup_nil⟩).2
  · intro records gt hgt
    have hsub := dedupFold_subset
      ((records.foldl tagRecordStep {}).game_tags) ∅ [] gt hgt
    rcases hsub with h | h
    · cases h
    · exact tagRecordFold_gtInv records {}
        (fun x hx => absurd hx (List.not_mem_nil x)) gt h

/-- Witness for C3 (amended): the junction row of the second record
references the first-observed id 10, and the re-bound deduped tag junction
row references a key of the final tags table. -/
theorem c3_canonical_first_observed_witness :
    ((6, 10) ∈ (prepare_data (probeEnum [])
        (probeEnum [(5, 10), (6, 10)]) c3WitData).game_categories ↔
      (6, 10) ∈ canonFrom (catStream c3WitData) (catStream c3WitData)) ∧
    (11 : Nat) ∈ dictKeys (prepareTags c3CexRecords).1 :=
  ⟨c3_canonical_first_observed.2.2.1 (probeEnum [])
      (probeEnum [(5, 10), (6, 10)]) c3WitData (by decide) (6, 10),
    c3_canonical_first_observed.2.2.2.2.2 c3CexRecords
      (1, 11, 3, none) (by decide)⟩

/-! ## Claim C9 -/

/-- C9: the claim as stated is false for the set-materialized tables of
insert_app_details.py.  `developers` is built as `list(set(...))`: both the
increasing and the decreasing iteration orders are valid listings of the set
`{"a", "b"}` (string set order varies per run with hash randomization), they
produce different output tables, and the first of them differs from the
first-encounter order `["b", "a"]` recorded by `game_developers` — so the
rows neither reliably preserve first-encounter order nor are deterministic
across runs. -/
theorem c9_output_order_counterexample :
    ValidEnum (probeEnum ["a", "b"]) (prepLoop c9CexData).developers ∧
    ValidEnum (probeEnum ["b", "a"]) (prepLoop c9CexData).developers ∧
    (prepare_data (probeEnum ["a", "b"]) (probeEnum []) c9CexData).developers =
      ["a", "b"] ∧
    (prepare_data (probeEnum ["b", "a"]) (probeEnum []) c9CexData).developers =
      ["b", "a"] ∧
    (prepare_data (probeEnum ["a", "b"]) (probeEnum []) c9CexData).developers ≠
      (prepare_data (probeEnum ["b", "a"]) (probeEnum []) c9CexData).developers ∧
    (prepLoop c9CexData).game_developers.map Prod.snd = ["b", "a"] := by
  refine ⟨by decide, by decide, by decide, by decide, by decide, by decide⟩

/-- C9 (amended): the tables that are not materialized through a Python set —
`games`, `genres`, `categories`, `game_genres`, `game_developers`,
`game_publishers` (and the tags tables of insert_tags.py) — do not depend on
set-iteration order and preserve first-encounter order: the games rows are
the game-typed input records in input order, the genres table rows appear in
first-occurrence order of their numeric ids, and the deduped `game_tags` rows
are exactly the first occurrence of each `(appid, tagid)` key in emission
order.  Only `developers`, `publishers`, and `game_categories` are emitted in
set-iteration order, which need not follow first encounter and varies across
runs. -/
theorem c9_encounter_order_determinism :
    (∀ (e1 e2 : Finset String → List String)
        (p1 p2 : Finset (Nat × Nat) → List (Nat × Nat))
        (data : List (Nat × Option RawApp)),
        (prepare_data e1 p1 data).games = (prepare_data e2 p2 data).games ∧
        (prepare_data e1 p1 data).genres = (prepare_data e2 p2 data).genres ∧
        (prepare_data e1 p1 data).categories =
          (prepare_data e2 p2 data).categories ∧
        (prepare_data e1 p1 data).game_genres =
          (prepare_data e2 p2 data).game_genres ∧
        (prepare_data e1 p1 data).game_developers =
          (prepare_data e2 p2 data).game_developers ∧
        (prepare_data e1 p1 data).game_publishers =
          (prepare_data e2 p2 data).game_publishers) ∧
    (∀ data : List (Nat × Option RawApp),
        (prepLoop data).games = specGamesRows data) ∧
    (∀ data : List (Nat × Option RawApp),
        (prepLoop data).genres.map Prod.fst =
          firstOccurrenceKeys ((genreStream data).map (fun e => e.2.id))) ∧
    (∀ l : List (Nat × Nat × Nat × Option String),
        dedupGameTags l = specDedupTags l) := by
  refine ⟨?_, ?_, ?_, dedupGameTags_eq_spec⟩
  · intro e1 e2 p1 p2 data
    exact ⟨rfl, rfl, rfl, rfl, rfl, rfl⟩
  · intro data
    show (data.foldl processApp {}).games = _
    rw [prepFold_games data {}]
    rfl
  · intro data
    show dictKeys (data.foldl processApp {}).genres = _
    rw [show dictKeys (data.foldl processApp ({} : PrepState)).genres =
        dictKeys (foldGenreStream {} (genreStream data)).genres from by
        rw [prepFold_genres data {}],
      foldGenre_keys (genreStream data) {},
      show dictKeys ({} : PrepState).genres = [] from rfl,
      foldl_updKeys_spec]
    rw [List.filter_eq_self.mpr
      (fun a _ => by simp : ∀ a ∈ (genreStream data).map (fun e => e.2.id),
        decide (a ∉ ([] : List Nat)) = true)]
    rfl

end SteamData
